import Mathlib

/-!
Verification development for the ASHA custom search method
(examples/custom_search_method/asha_search_method/asha.py).

The Python module is embedded shallowly:

* Python `int` counters become `Int` (Python integers are unbounded and may go
  negative through `-=`).
* metric values (Python `float`) are modelled as rationals `ℚ`: every claim
  treated here depends only on the ordered-field structure of the finite
  floats, never on rounding, so the order embedding of the finite floats into
  `ℚ` is faithful.  The one construction that does depend on IEEE rounding
  (`_init_rungs`, which divides through `pow(divisor, float(...))`) is not
  embedded.
* `uuid.uuid4()` produces fresh trial identifiers; freshness is modelled by a
  counter `next_id` carried in the state, and identifiers are `Nat`.
* hyperparameter dictionaries are opaque to the algorithm and are dropped from
  the `Create` operation.
* fallible Python code (dictionary lookup `KeyError`, list `IndexError`,
  failed `assert`, unbounded recursion beyond the modelled fuel) is modelled
  with `Option`: `none` is an exception escaping the handler.
* the `dict` `trial_rungs` is an association list updated in place;
  `early_exit_trials` and `closed_trials` are `set`s modelled as duplicate
  free lists via `setAdd`.
-/

namespace Asha

/-- Value of `sys.float_info.max`, exactly `(2^53 - 1) * 2^971`.  It is used by
the Python code as a sentinel worst metric for early-exited trials. -/
def sys_float_info_max : ℚ := ((((2:ℤ)^53 - 1) * 2^971 : ℤ) : ℚ)

/-- Python values delivered as the `metric` payload of a validation event.
`on_validation_completed` asserts `isinstance(metric, float)`; an `int`
payload (or any non-float) fails that assertion. -/
inductive PyValue where
  | float (q : ℚ)
  | int (n : ℤ)
deriving DecidableEq

/-- Check used to model `isinstance(metric, float)`. -/
def PyValue.isFloat : PyValue → Bool
  | .float _ => true
  | _ => false

/-- Modelled from the spec: the early-exit reason enumeration with members
ERRORED, USER_CANCELLED and INVALID_HP (the `determined.searcher` library that
defines it is not part of the sources).  Python performs no type enforcement
and `on_trial_exited_early` only compares the delivered value against
`INVALID_HP`, so a value outside the documented enumeration is representable;
the constructor `other` stands for any such value. -/
inductive ExitedReason where
  | errored
  | userCancelled
  | invalidHp
  | other
deriving DecidableEq

/-- Operations returned to the search runner (`searcher.Operation`).  The
hyperparameter payload of `Create` is opaque and dropped. -/
inductive Operation where
  | create (request_id : Nat)
  | validateAfter (request_id : Nat) (length : Int)
  | close (request_id : Nat)
  | shutdown
deriving DecidableEq

/-- Python class `TrialMetric` from asha.py. -/
structure TrialMetric where
  request_id : Nat
  metric : ℚ
  promoted : Bool := false
deriving DecidableEq

/-- Python class `Rung` from asha.py. -/
structure Rung where
  units_needed : Int
  idx : Nat
  metrics : List TrialMetric := []
  outstanding_trials : Int := 0
deriving DecidableEq

/-- Python class `ASHASearchMethodState` (the single mutable aggregate),
plus the fresh-identifier counter `next_id` replacing `uuid.uuid4()`. -/
structure SearchState where
  max_length : Int
  max_trials : Int
  num_rungs : Nat
  divisor : Nat
  max_concurrent_trials : Int
  is_smaller_better : Bool := true
  rungs : List Rung
  trial_rungs : List (Nat × Nat)
  pending_trials : Int := 0
  completed_trials : Int := 0
  invalid_trials : Int := 0
  early_exit_trials : List Nat := []
  closed_trials : List Nat := []
  next_id : Nat := 0
deriving DecidableEq

/-- Addition to a Python `set`: insert the element unless already present. -/
def setAdd (s : List Nat) (x : Nat) : List Nat :=
  if x ∈ s then s else x :: s

/-- Lookup in the `trial_rungs` dictionary. -/
def trLookup (m : List (Nat × Nat)) (k : Nat) : Option Nat :=
  match m with
  | [] => none
  | (a, b) :: rest => if a = k then some b else trLookup rest k

/-- Assignment `trial_rungs[k] = v` on the dictionary. -/
def trUpdate (m : List (Nat × Nat)) (k v : Nat) : List (Nat × Nat) :=
  (k, v) :: m.filter (fun p => decide (p.1 ≠ k))

/-- In-place update of the rung object at index `i` (Python holds a reference
into the `rungs` list and mutates it; out of range cannot occur there). -/
def rungsModify (rs : List Rung) (i : Nat) (f : Rung → Rung) : List Rung :=
  match rs[i]? with
  | some r => rs.set i (f r)
  | none => rs

/-- Binary search loop of `Rung._search_metric_index`:
`while i < j: mid = (i + j) >> 1; if metrics[mid].metric <= metric: i = mid+1
else: j = mid`.  The shift `>> 1` is division by two.  The loop is modelled
with a structural fuel argument; every iteration shrinks `j - i`, so any
fuel of at least `j - i` gives the exact loop semantics (the initial call
passes the list length).  The `none` arm of the element access is
unreachable while `j` is at most the length. -/
def search_metric_index_aux (metrics : List TrialMetric) (metric : ℚ) :
    Nat → Nat → Nat → Nat
  | 0, i, _ => i
  | fuel + 1, i, j =>
    if i < j then
      let mid := (i + j) / 2
      match metrics[mid]? with
      | some tm =>
        if tm.metric ≤ metric then search_metric_index_aux metrics metric fuel (mid + 1) j
        else search_metric_index_aux metrics metric fuel i mid
      | none => i
    else i

/-- Python method `Rung._search_metric_index`. -/
def Rung.search_metric_index (r : Rung) (metric : ℚ) : Nat :=
  search_metric_index_aux r.metrics metric r.metrics.length 0 r.metrics.length

/-- Python method `Rung.promotions_async`: returns the list of promoted trial
ids (at most one) together with the mutated rung. -/
def Rung.promotions_async (r : Rung) (request_id : Nat) (metric : ℚ)
    (divisor : Nat) : List Nat × Rung :=
  let old_num_promote := r.metrics.length / divisor
  let num_promote := (r.metrics.length + 1) / divisor
  let index := r.search_metric_index metric
  let promote_now := index < num_promote
  let trial_metric : TrialMetric :=
    { request_id := request_id, metric := metric, promoted := promote_now }
  let ms := r.metrics.insertIdx index trial_metric
  if promote_now then ([request_id], { r with metrics := ms })
  else if num_promote ≠ old_num_promote then
    match ms[old_num_promote]? with
    | some tm =>
      if tm.promoted = false then
        ([tm.request_id],
         { r with metrics := ms.set old_num_promote { tm with promoted := true } })
      else ([], { r with metrics := ms })
    | none => ([], { r with metrics := ms })
  else ([], { r with metrics := ms })

/-- Inner loop of `ASHASearchMethod._get_close_rungs_ops` over the metrics of
one drained rung, threading the `closed_trials` set. -/
def close_rung_metrics (early : List Nat) :
    List TrialMetric → List Nat → List Operation × List Nat
  | [], closed => ([], closed)
  | tm :: rest, closed =>
    if tm.promoted = false ∧ tm.request_id ∉ closed then
      if tm.request_id ∉ early then
        let closed2 := setAdd closed tm.request_id
        let (ops, closed3) := close_rung_metrics early rest closed2
        (Operation.close tm.request_id :: ops, closed3)
      else close_rung_metrics early rest closed
    else close_rung_metrics early rest closed

/-- Python method `ASHASearchMethod._get_close_rungs_ops`: scan the rungs from
the bottom, stop at the first rung with outstanding trials, close every
unpromoted, not yet closed, not early-exited metric seen before that point. -/
def get_close_rungs_ops_aux (early : List Nat) :
    List Rung → List Nat → List Operation × List Nat
  | [], closed => ([], closed)
  | r :: rest, closed =>
    if r.outstanding_trials > 0 then ([], closed)
    else
      let (ops1, closed1) := close_rung_metrics early r.metrics closed
      let (ops2, closed2) := get_close_rungs_ops_aux early rest closed1
      (ops1 ++ ops2, closed2)

/-- Tail of `ASHASearchMethod._promote_async` after the rung branch: possibly
create a replacement trial, then possibly run the shutdown sweep. -/
def promote_tail (s : SearchState) (ops : List Operation) (added : Bool) :
    Option (List Operation × SearchState) :=
  let all_trials : Int := (s.trial_rungs.length : Int) - s.invalid_trials
  let step1 : Option (List Operation × SearchState) :=
    if added = false ∧ all_trials < s.max_trials then
      match s.rungs[0]? with
      | none => none
      | some rung0 =>
        let s1 := { s with pending_trials := s.pending_trials + 1 }
        let create_id := s1.next_id
        let s2 := { s1 with
          next_id := s1.next_id + 1,
          trial_rungs := trUpdate s1.trial_rungs create_id 0 }
        some (ops ++ [Operation.create create_id,
                      Operation.validateAfter create_id rung0.units_needed], s2)
    else some (ops, s)
  match step1 with
  | none => none
  | some (ops1, s1) =>
    match s1.rungs[0]? with
    | none => none
    | some rung0 =>
      if (rung0.metrics.length : Int) = s1.max_trials then
        let (cops, closed2) :=
          get_close_rungs_ops_aux s1.early_exit_trials s1.rungs s1.closed_trials
        some (ops1 ++ cops, { s1 with closed_trials := closed2 })
      else some (ops1, s1)

/-- For-loop of `_promote_async` over the promoted ids.  `rungUnits` and
`nextUnits` are the `units_needed` of the captured `rung` and `next_rung`
objects.  The recursive cascade `return self._promote_async(promoted, MAX)`
for an early-exit promoted id is abstracted into the continuation `cascade`
(instantiated by `promote_async` with itself at one less fuel); it returns
the cascade result directly, discarding the operations accumulated so far,
exactly as the Python `return` inside the loop does. -/
def promote_loop (cascade : SearchState → Nat → ℚ → Option (List Operation × SearchState))
    (rung_idx : Nat) (rungUnits nextUnits : Int) :
    List Nat → SearchState → List Operation → Bool →
    Option (List Operation × SearchState)
  | [], s, ops, added => promote_tail s ops added
  | p :: rest, s, ops, added =>
    let s1 := { s with trial_rungs := trUpdate s.trial_rungs p (rung_idx + 1) }
    let newRungs := rungsModify s1.rungs (rung_idx + 1)
      (fun r => { r with outstanding_trials := r.outstanding_trials + 1 })
    let s2 := { s1 with rungs := newRungs }
    if p ∈ s2.early_exit_trials then
      cascade s2 p sys_float_info_max
    else
      promote_loop cascade rung_idx rungUnits nextUnits rest
        { s2 with pending_trials := s2.pending_trials + 1 }
        (ops ++ [Operation.validateAfter p (max (nextUnits - rungUnits) 1)]) true

/-- Python method `ASHASearchMethod._promote_async`.  The Python recursion
(the cascade for a retroactively promoted early-exit trial) is modelled with
an explicit fuel argument; `none` on zero fuel stands for recursion beyond
the modelled depth.  The theorem for C9 shows `num_rungs` fuel always
suffices under the reachable-state invariants. -/
def promote_async (s : SearchState) (request_id : Nat) (metric : ℚ) :
    Nat → Option (List Operation × SearchState)
  | 0 => none
  | fuel + 1 =>
    match trLookup s.trial_rungs request_id with
    | none => none
    | some rung_idx =>
      match s.rungs[rung_idx]? with
      | none => none
      | some rung0 =>
        let rung := { rung0 with outstanding_trials := rung0.outstanding_trials - 1 }
        let s1 := { s with rungs := s.rungs.set rung_idx rung }
        if rung_idx = s.num_rungs - 1 then
          let rungA := { rung with metrics := rung.metrics ++
            [{ request_id := request_id, metric := metric, promoted := false }] }
          let s2 := { s1 with rungs := s1.rungs.set rung_idx rungA }
          if request_id ∈ s2.early_exit_trials then promote_tail s2 [] false
          else
            promote_tail
              { s2 with closed_trials := setAdd s2.closed_trials request_id }
              [Operation.close request_id] false
        else
          match s1.rungs[rung_idx + 1]? with
          | none => none
          | some next_rung =>
            let pr := rung.promotions_async request_id metric s.divisor
            let s2 := { s1 with rungs := s1.rungs.set rung_idx pr.2 }
            promote_loop (fun t p m => promote_async t p m fuel)
              rung_idx rung.units_needed next_rung.units_needed
              pr.1 s2 [] false

/-- Python method `ASHASearchMethod.on_validation_completed`.  The first
statement is `assert isinstance(metric, float)`; a non-float payload raises
before any state mutation, modelled by `none`. -/
def on_validation_completed (s : SearchState) (request_id : Nat)
    (metric : PyValue) : Option (List Operation × SearchState) :=
  match metric with
  | PyValue.float m =>
    let s1 := { s with pending_trials := s.pending_trials - 1 }
    let m1 := if s1.is_smaller_better = false then -m else m
    promote_async s1 request_id m1 s1.num_rungs
  | _ => none

/-- Python method `ASHASearchMethod.on_trial_closed`. -/
def on_trial_closed (s : SearchState) (request_id : Nat) :
    List Operation × SearchState :=
  let s1 := { s with
    completed_trials := s.completed_trials + 1,
    closed_trials := setAdd s.closed_trials request_id }
  if s1.pending_trials = 0 ∧ s1.completed_trials = s1.max_trials then
    ([Operation.shutdown], s1)
  else ([], s1)

/-- Python method `ASHASearchMethod.on_trial_created`. -/
def on_trial_created (s : SearchState) (request_id : Nat) :
    Option (List Operation × SearchState) :=
  match s.rungs[0]? with
  | none => none
  | some rung0 =>
    some ([], { s with
      rungs := s.rungs.set 0
        { rung0 with outstanding_trials := rung0.outstanding_trials + 1 },
      trial_rungs := trUpdate s.trial_rungs request_id 0 })

/-- Purge used by the INVALID_HP branch:
`rung.metrics = list(filter(lambda x: x.request_id != request_id, rung.metrics))`. -/
def purgeMetrics (request_id : Nat) (ms : List TrialMetric) : List TrialMetric :=
  ms.filter (fun x => decide (x.request_id ≠ request_id))

/-- Python method `ASHASearchMethod.on_trial_exited_early`. -/
def on_trial_exited_early (s : SearchState) (request_id : Nat)
    (exited_reason : ExitedReason) : Option (List Operation × SearchState) :=
  let s0 := { s with pending_trials := s.pending_trials - 1 }
  if exited_reason = ExitedReason.invalidHp then
    let s1 := { s0 with
      early_exit_trials := setAdd s0.early_exit_trials request_id,
      closed_trials := setAdd s0.closed_trials request_id,
      invalid_trials := s0.invalid_trials + 1 }
    match trLookup s1.trial_rungs request_id with
    | none => none
    | some highest_rung_index =>
      match s1.rungs[highest_rung_index]? with
      | none => none
      | some rung =>
        let rungA := { rung with outstanding_trials := rung.outstanding_trials - 1 }
        let s2 := { s1 with rungs := s1.rungs.set highest_rung_index rungA }
        let purged := s2.rungs.mapIdx (fun i r =>
          if i ≤ highest_rung_index then
            { r with metrics := purgeMetrics request_id r.metrics }
          else r)
        let s3 := { s2 with rungs := purged }
        match s3.rungs[0]? with
        | none => none
        | some rung0 =>
          let create_id := s3.next_id
          let s4 := { s3 with
            next_id := s3.next_id + 1,
            trial_rungs := trUpdate s3.trial_rungs create_id 0,
            pending_trials := s3.pending_trials + 1 }
          some ([Operation.close request_id,
                 Operation.create create_id,
                 Operation.validateAfter create_id rung0.units_needed], s4)
  else
    let s1 := { s0 with
      early_exit_trials := setAdd s0.early_exit_trials request_id,
      closed_trials := setAdd s0.closed_trials request_id }
    promote_async s1 request_id sys_float_info_max s1.num_rungs

/-- Python method `ASHASearchMethod._get_max_concurrent_trials`.  With at
least one rung, `pow(divisor, num_rungs - 1)` is exact integer power. -/
def get_max_concurrent_trials (s : SearchState) : Int :=
  if s.max_concurrent_trials > 0 then min s.max_concurrent_trials s.max_trials
  else max 1 (min ((s.divisor : Int) ^ (s.num_rungs - 1)) s.max_trials)

/-- Loop of `ASHASearchMethod.initial_operations` creating `n` fresh trials. -/
def initial_operations_loop (s : SearchState) :
    Nat → Option (List Operation × SearchState)
  | 0 => some ([], s)
  | n + 1 =>
    match s.rungs[0]? with
    | none => none
    | some rung0 =>
      let create_id := s.next_id
      let s1 := { s with
        next_id := s.next_id + 1,
        trial_rungs := trUpdate s.trial_rungs create_id 0,
        pending_trials := s.pending_trials + 1 }
      match initial_operations_loop s1 n with
      | none => none
      | some (ops, s2) =>
        some (Operation.create create_id ::
              Operation.validateAfter create_id rung0.units_needed :: ops, s2)

/-- Python method `ASHASearchMethod.initial_operations`. -/
def initial_operations (s : SearchState) : Option (List Operation × SearchState) :=
  initial_operations_loop s (get_max_concurrent_trials s).toNat

/-- Inbound searcher events (progress queries and persistence emit no
operations and are outside this alphabet). -/
inductive Event where
  | initialOps
  | trialCreated (request_id : Nat)
  | validationCompleted (request_id : Nat) (metric : PyValue)
  | trialClosed (request_id : Nat)
  | trialExitedEarly (request_id : Nat) (reason : ExitedReason)
deriving DecidableEq

/-- Dispatch of one event to its handler. -/
def handle (s : SearchState) : Event → Option (List Operation × SearchState)
  | .initialOps => initial_operations s
  | .trialCreated rid => on_trial_created s rid
  | .validationCompleted rid m => on_validation_completed s rid m
  | .trialClosed rid => some (on_trial_closed s rid)
  | .trialExitedEarly rid r => on_trial_exited_early s rid r

/-- Run of a sequence of events, accumulating the emitted operations;
`none` if any handler raises. -/
def runEvents (s : SearchState) : List Event → Option (List Operation × SearchState)
  | [] => some ([], s)
  | e :: rest =>
    match handle s e with
    | none => none
    | some (ops, s1) =>
      match runEvents s1 rest with
      | none => none
      | some (ops2, s2) => some (ops ++ ops2, s2)

/-- Ids of the `Close` operations in an operation list, in emission order. -/
def closeIds (ops : List Operation) : List Nat :=
  ops.filterMap (fun op => match op with
    | Operation.close rid => some rid
    | _ => none)

/-- Sortedness of a metrics list: ascending in the metric value (the data
model invariant claimed by the spec). -/
def MetricsSorted (l : List TrialMetric) : Prop :=
  l.Pairwise (fun a b => a.metric ≤ b.metric)

instance (l : List TrialMetric) : Decidable (MetricsSorted l) :=
  inferInstanceAs (Decidable (l.Pairwise _))

/-- Sequence of insertions into one rung through the Promotion Engine
(`Rung.promotions_async`), used by the claims about quota maintenance. -/
def runInserts (d : Nat) (r : Rung) (ins : List (Nat × ℚ)) : Rung :=
  ins.foldl (fun acc p => (acc.promotions_async p.1 p.2 d).2) r

/-- Concrete single-rung search state used in counterexamples and witnesses
(fresh except where a trial is registered explicitly). -/
def oneRungState : SearchState := {
  max_length := 16
  max_trials := 10
  num_rungs := 1
  divisor := 3
  max_concurrent_trials := 0
  rungs := [{ units_needed := 16, idx := 0 }]
  trial_rungs := []
  next_id := 100 }

/-- Concrete two-rung search state with trial 1 registered at rung 1 and
holding metric entries in both rungs, and trial 2 registered at rung 0. -/
def twoRungState : SearchState := {
  max_length := 8
  max_trials := 10
  num_rungs := 2
  divisor := 2
  max_concurrent_trials := 0
  rungs := [
    { units_needed := 4, idx := 0,
      metrics := [{ request_id := 1, metric := 3, promoted := true },
                  { request_id := 2, metric := 7, promoted := false }],
      outstanding_trials := 0 },
    { units_needed := 8, idx := 1,
      metrics := [{ request_id := 1, metric := 2, promoted := false }],
      outstanding_trials := 2 }]
  trial_rungs := [(1, 1), (2, 0)]
  pending_trials := 5
  next_id := 100 }

/-- Post-state description of the INVALID_HP branch of
`on_trial_exited_early` for a trial registered at rung index `r`: the exact
returned operations, the counter and set updates (pending is net unchanged:
the initial decrement for the exiting trial offsets the increment for the
replacement), the registration of the fresh trial, and the per-rung purge of
the metric entries at indices `0..r` with the outstanding decrement at `r`. -/
def InvalidHpPost (s : SearchState) (rid r : Nat) (h2 : r < s.rungs.length) : Prop :=
  ∃ s', on_trial_exited_early s rid ExitedReason.invalidHp =
      some ([Operation.close rid, Operation.create s.next_id,
             Operation.validateAfter s.next_id
               (s.rungs.get ⟨0, Nat.lt_of_le_of_lt (Nat.zero_le r) h2⟩).units_needed], s') ∧
    s'.pending_trials = s.pending_trials ∧
    s'.invalid_trials = s.invalid_trials + 1 ∧
    s'.closed_trials = setAdd s.closed_trials rid ∧
    s'.early_exit_trials = setAdd s.early_exit_trials rid ∧
    s'.completed_trials = s.completed_trials ∧
    s'.next_id = s.next_id + 1 ∧
    s'.trial_rungs = trUpdate s.trial_rungs s.next_id 0 ∧
    s'.rungs.length = s.rungs.length ∧
    ∀ i (hi : i < s.rungs.length) (hi' : i < s'.rungs.length),
      ((s'.rungs.get ⟨i, hi'⟩).metrics =
        if i ≤ r then purgeMetrics rid (s.rungs.get ⟨i, hi⟩).metrics
        else (s.rungs.get ⟨i, hi⟩).metrics) ∧
      ((s'.rungs.get ⟨i, hi'⟩).outstanding_trials =
        if i = r then (s.rungs.get ⟨i, hi⟩).outstanding_trials - 1
        else (s.rungs.get ⟨i, hi⟩).outstanding_trials) ∧
      (s'.rungs.get ⟨i, hi'⟩).units_needed = (s.rungs.get ⟨i, hi⟩).units_needed

/-- Admissibility of one event in a state: the environment never reports a
validation result or an early exit for a trial it has already been told to
close (or that reported closed) — i.e. for a trial already in
`closed_trials`.  All other events are unrestricted. -/
def okEvent (s : SearchState) : Event → Bool
  | .validationCompleted rid _ => decide (rid ∉ s.closed_trials)
  | .trialExitedEarly rid _ => decide (rid ∉ s.closed_trials)
  | _ => true

/-- Admissibility of an event sequence from a state: every event is
admissible in the state it is delivered in. -/
def admissibleFrom (s : SearchState) : List Event → Bool
  | [] => true
  | e :: rest =>
    okEvent s e &&
      (match handle s e with
       | none => true
       | some p => admissibleFrom p.2 rest)

/-- Relation between the closed set before and after a handler call and the
Close operations it emitted: the emitted Close ids are duplicate-free, none
of them was in the closed set before, all of them are in it after, and the
closed set only grows. -/
def CloseListOk (closed closed2 : List Nat) (ops : List Operation) : Prop :=
  (closeIds ops).Nodup ∧
  (∀ t ∈ closeIds ops, t ∉ closed) ∧
  (∀ t ∈ closeIds ops, t ∈ closed2) ∧
  (∀ t ∈ closed, t ∈ closed2)

/-- State invariant for the sortedness claim: the rungs list has exactly
`num_rungs` entries and every rung strictly below the final one has a
metrics list sorted ascending (the final rung is appended to in arrival
order by `_promote_async` and is exempt). -/
def RungsSortedBelowTop (s : SearchState) : Prop :=
  s.rungs.length = s.num_rungs ∧
  ∀ i < s.rungs.length - 1, MetricsSorted ((s.rungs[i]?.map Rung.metrics).getD [])

instance (s : SearchState) : Decidable (RungsSortedBelowTop s) := by
  unfold RungsSortedBelowTop
  exact instDecidableAnd

/-- Prefix-promotion invariant of a rung under the Promotion Engine: the
floor(n/d) smallest entries (the first floor(n/d) in sorted order) all carry
`promoted = true`. -/
def PromotedPrefix (d : Nat) (l : List TrialMetric) : Prop :=
  ∀ k (hk : k < l.length), k < l.length / d → (l.get ⟨k, hk⟩).promoted = true

/-- Concrete empty rung used by the C1 witness. -/
def c1Rung : Rung := { units_needed := 4, idx := 0 }

/-- Concrete insertion sequence used by the C1 witness. -/
def c1Ins : List (Nat × ℚ) := [(1, 5), (2, 3), (3, 8), (4, 1)]

/-- Concrete sorted rung with a tie at metric 2, used by the C7 witness. -/
def c7Rung : Rung := { units_needed := 4, idx := 0, metrics := [{ request_id := 1, metric := 1, promoted := false }, { request_id := 2, metric := 2, promoted := false }, { request_id := 3, metric := 2, promoted := false }], outstanding_trials := 0 }

/-! ### Generic helper lemmas -/

theorem mem_setAdd {s : List Nat} {x y : Nat} :
    y ∈ setAdd s x ↔ y = x ∨ y ∈ s := by
  unfold setAdd
  by_cases h : x ∈ s
  · simp only [if_pos h]
    constructor
    · exact Or.inr
    · rintro (rfl | hy)
      · exact h
      · exact hy
  · simp [if_neg h]

theorem subset_setAdd {s : List Nat} {x : Nat} : ∀ y ∈ s, y ∈ setAdd s x :=
  fun _ hy => mem_setAdd.mpr (Or.inr hy)

theorem self_mem_setAdd {s : List Nat} {x : Nat} : x ∈ setAdd s x :=
  mem_setAdd.mpr (Or.inl rfl)

theorem closeIds_append (a b : List Operation) :
    closeIds (a ++ b) = closeIds a ++ closeIds b :=
  List.filterMap_append a b _

theorem closeIds_nil : closeIds [] = [] := rfl

theorem closeIds_cons_close (rid : Nat) (ops : List Operation) :
    closeIds (Operation.close rid :: ops) = rid :: closeIds ops := rfl

theorem closeIds_cons_create (rid : Nat) (ops : List Operation) :
    closeIds (Operation.create rid :: ops) = closeIds ops := rfl

theorem closeIds_cons_validate (rid : Nat) (len : Int) (ops : List Operation) :
    closeIds (Operation.validateAfter rid len :: ops) = closeIds ops := rfl

theorem closeIds_cons_shutdown (ops : List Operation) :
    closeIds (Operation.shutdown :: ops) = closeIds ops := rfl

theorem trLookup_trUpdate_self (m : List (Nat × Nat)) (k v : Nat) :
    trLookup (trUpdate m k v) k = some v := by
  simp [trUpdate, trLookup]

/-- Invariant-based specification of the binary search loop of
`_search_metric_index`: on a sorted segment discipline (everything before `i`
is at most the probe, everything from `j` on exceeds it), with fuel at least
`j - i`, the loop lands on the boundary index. -/
theorem search_aux_spec (l : List TrialMetric) (m : ℚ) (hs : MetricsSorted l) :
    ∀ fuel i j, i ≤ j → j ≤ l.length → j - i ≤ fuel →
    (∀ k (hk : k < l.length), k < i → (l.get ⟨k, hk⟩).metric ≤ m) →
    (∀ k (hk : k < l.length), j ≤ k → m < (l.get ⟨k, hk⟩).metric) →
    search_metric_index_aux l m fuel i j ≤ l.length ∧
    ∀ k (hk : k < l.length),
      ((l.get ⟨k, hk⟩).metric ≤ m ↔ k < search_metric_index_aux l m fuel i j) := by
  have hs2 : l.Pairwise (fun a b : TrialMetric => a.metric ≤ b.metric) := hs
  have hpw := List.pairwise_iff_getElem.mp hs2
  intro fuel
  induction fuel with
  | zero =>
    intro i j hij hjl hfuel hleft hright
    have hij' : i = j := by omega
    subst hij'
    simp only [search_metric_index_aux]
    constructor
    · omega
    · intro k hk
      constructor
      · intro hle
        by_contra hlt
        exact absurd hle (not_le.mpr (hright k hk (by omega)))
      · intro hlt
        exact hleft k hk hlt
  | succ fuel ih =>
    intro i j hij hjl hfuel hleft hright
    by_cases hlt : i < j
    · have hmidlt : (i + j) / 2 < j := by omega
      have hmidge : i ≤ (i + j) / 2 := by omega
      have hmidl : (i + j) / 2 < l.length := by omega
      rw [search_metric_index_aux, if_pos hlt]
      dsimp only []
      rw [List.getElem?_eq_getElem hmidl]
      dsimp only []
      by_cases hcmp : l[(i + j) / 2].metric ≤ m
      · rw [if_pos hcmp]
        refine ih ((i + j) / 2 + 1) j (by omega) hjl (by omega) ?_ hright
        intro k hk hklt
        rcases Nat.lt_or_ge k i with hki | hki
        · exact hleft k hk hki
        · rcases Nat.lt_or_ge k ((i + j) / 2) with hkm | hkm
          · have := hpw k ((i + j) / 2) hk hmidl hkm
            simp only [List.get_eq_getElem]
            exact le_trans this hcmp
          · have hkeq : k = (i + j) / 2 := by omega
            subst hkeq
            simpa using hcmp
      · rw [if_neg hcmp]
        refine ih i ((i + j) / 2) (by omega) (by omega) (by omega) hleft ?_
        intro k hk hkge
        have hmlt : m < l[(i + j) / 2].metric := not_le.mp hcmp
        rcases Nat.lt_or_ge ((i + j) / 2) k with hkm | hkm
        · have := hpw ((i + j) / 2) k hmidl hk hkm
          simp only [List.get_eq_getElem]
          exact lt_of_lt_of_le hmlt this
        · have hkeq : k = (i + j) / 2 := by omega
          subst hkeq
          simpa using hmlt
    · have hij' : i = j := by omega
      subst hij'
      rw [search_metric_index_aux, if_neg hlt]
      constructor
      · omega
      · intro k hk
        constructor
        · intro hle
          by_contra hlt2
          exact absurd hle (not_le.mpr (hright k hk (by omega)))
        · intro hlt2
          exact hleft k hk hlt2

/-! ### C7: right-biased binary search -/

/-- C7: on a rung whose metrics are sorted ascending, `_search_metric_index`
returns an index bounded by the length such that every entry strictly before
it has metric at most `m` and every entry from it on has metric strictly
greater than `m` — i.e. the first position whose existing metric strictly
exceeds `m`, so a new entry equal to existing values is placed after all
existing equal entries (right-biased tie-breaking). -/
theorem c7_search_metric_index (r : Rung) (m : ℚ) (hs : MetricsSorted r.metrics) :
    r.search_metric_index m ≤ r.metrics.length ∧
    ∀ k (hk : k < r.metrics.length),
      ((r.metrics.get ⟨k, hk⟩).metric ≤ m ↔ k < r.search_metric_index m) := by
  unfold Rung.search_metric_index
  exact search_aux_spec r.metrics m hs r.metrics.length 0 r.metrics.length
    (Nat.zero_le _) le_rfl (by omega)
    (fun k hk hklt => absurd hklt (Nat.not_lt_zero k))
    (fun k hk hkge => absurd hk (by omega))

/-- Witness for C7 on a concrete sorted rung with a tie at the probe value:
the returned index is 3, after both entries equal to the probe. -/
theorem c7_search_metric_index_witness :
    MetricsSorted c7Rung.metrics ∧
    (c7Rung.search_metric_index 2 ≤ c7Rung.metrics.length ∧
     ∀ k (hk : k < c7Rung.metrics.length),
       ((c7Rung.metrics.get ⟨k, hk⟩).metric ≤ 2 ↔ k < c7Rung.search_metric_index 2)) :=
  ⟨by decide, c7_search_metric_index c7Rung 2 (by decide)⟩

/-! ### C5: on_trial_closed -/

/-- C5: handling TrialClosed(trialId) increments completedTrials, adds the id
to closedTrials, leaves everything else unchanged, and returns the single
operation Shutdown exactly when, after the increment, pendingTrials = 0 and
completedTrials = maxTrials; otherwise it returns the empty list. -/
theorem c5_on_trial_closed (s : SearchState) (rid : Nat) :
    (on_trial_closed s rid).2.completed_trials = s.completed_trials + 1 ∧
    (on_trial_closed s rid).2.closed_trials = setAdd s.closed_trials rid ∧
    (on_trial_closed s rid).2.pending_trials = s.pending_trials ∧
    (on_trial_closed s rid).2.invalid_trials = s.invalid_trials ∧
    (on_trial_closed s rid).2.early_exit_trials = s.early_exit_trials ∧
    (on_trial_closed s rid).2.rungs = s.rungs ∧
    (on_trial_closed s rid).2.trial_rungs = s.trial_rungs ∧
    (on_trial_closed s rid).2.next_id = s.next_id ∧
    ((on_trial_closed s rid).1 = [Operation.shutdown] ↔
      s.pending_trials = 0 ∧ s.completed_trials + 1 = s.max_trials) ∧
    (¬ (s.pending_trials = 0 ∧ s.completed_trials + 1 = s.max_trials) →
      (on_trial_closed s rid).1 = []) := by
  by_cases h : s.pending_trials = 0 ∧ s.completed_trials + 1 = s.max_trials
  · simp [on_trial_closed, h]
  · simp [on_trial_closed, h]

/-! ### C10: on_validation_completed asserts a float metric -/

/-- C10: handling ValidationCompleted with a metric payload that is not a
float fails the leading `assert isinstance(metric, float)` before any state
mutation; in the embedding the handler returns `none` (the raised exception)
and no successor state exists, so the SearchState is unchanged. -/
theorem c10_nonfloat_metric_asserts (s : SearchState) (rid : Nat) (v : PyValue)
    (h : v.isFloat = false) : on_validation_completed s rid v = none := by
  cases v with
  | float q => simp [PyValue.isFloat] at h
  | int n => rfl

/-- Witness for C10 at a concrete integer metric payload. -/
theorem c10_nonfloat_metric_asserts_witness :
    PyValue.isFloat (PyValue.int 3) = false ∧
    on_validation_completed oneRungState 1 (PyValue.int 3) = none :=
  ⟨rfl, c10_nonfloat_metric_asserts oneRungState 1 (PyValue.int 3) rfl⟩

/-! ### C8: out-of-enumeration exited reasons -/

/-- C8 counterexample: an exited reason outside the documented enumeration
(the constructor `other`) delivered for a registered trial does NOT fail
loudly: the handler completes normally (returns `some`, no exception),
refuting the claim that it raises an error. -/
theorem c8_counterexample :
    (on_trial_exited_early { oneRungState with trial_rungs := [(1, 0)] } 1
      ExitedReason.other).isSome = true := by decide

/-- C8 amended: a reason value other than INVALID_HP, including any value
outside the documented enumeration {ERRORED, USER_CANCELLED, INVALID_HP}, is
processed silently by the generic early-exit path, with behaviour identical
to ERRORED; no error is raised. -/
theorem c8_amended (s : SearchState) (rid : Nat) (reason : ExitedReason)
    (h : reason ≠ ExitedReason.invalidHp) :
    on_trial_exited_early s rid reason =
      on_trial_exited_early s rid ExitedReason.errored := by
  cases reason with
  | invalidHp => exact absurd rfl h
  | errored => rfl
  | userCancelled => rfl
  | other => rfl

/-- Witness for C8 amended at the concrete out-of-enumeration reason. -/
theorem c8_amended_witness :
    ExitedReason.other ≠ ExitedReason.invalidHp ∧
    on_trial_exited_early { oneRungState with trial_rungs := [(1, 0)] } 1
        ExitedReason.other =
      on_trial_exited_early { oneRungState with trial_rungs := [(1, 0)] } 1
        ExitedReason.errored :=
  ⟨by decide, c8_amended _ 1 ExitedReason.other (by decide)⟩

/-! ### C1 counterexample: exact quota fails -/

/-- C1 counterexample: with reduction factor 2, inserting the metrics
1, 2, 0 (in that order) through the Promotion Engine leaves the rung with
promoted flags [true, true, false]: two promoted entries after three
insertions, while floor(3/2) = 1.  The claimed exact quota
floor(n/divisor) is violated, and the promoted set depends on arrival
order. -/
theorem c1_counterexample :
    (runInserts 2 { units_needed := 4, idx := 0 } [(1, 1), (2, 2), (3, 0)]).metrics.map
        (fun tm => tm.promoted) = [true, true, false] ∧
    ([(1, 1), (2, 2), (3, 0)] : List (Nat × ℚ)).length / 2 = 1 := by decide

/-! ### C2 counterexample: the final rung is not kept sorted -/

/-- C2 counterexample: a run on a fresh single-rung state in which the final
rung receives metrics 5 then 3 ends with that rung holding
[(1, 5), (2, 3)] — the final rung appends in arrival order, so its metrics
list is not nondecreasing in metric value. -/
theorem c2_counterexample :
    Option.map (fun p => p.2.rungs.map Rung.metrics)
      (runEvents oneRungState [Event.trialCreated 1, Event.trialCreated 2,
        Event.validationCompleted 1 (PyValue.float 5),
        Event.validationCompleted 2 (PyValue.float 3)]) =
      some [[{ request_id := 1, metric := 5, promoted := false },
             { request_id := 2, metric := 3, promoted := false }]] ∧
    ¬ MetricsSorted [{ request_id := 1, metric := 5, promoted := false },
                     { request_id := 2, metric := 3, promoted := false }] := by decide

/-! ### C3 counterexample: double Close under arbitrary event sequences -/

/-- C3 counterexample: starting from a fresh single-rung state, the event
sequence [TrialCreated 7, TrialExitedEarly(7, INVALID_HP),
TrialExitedEarly(7, INVALID_HP)] makes the run emit Close(7) twice: the
claim fails for arbitrary event sequences because the INVALID_HP branch
emits Close unconditionally. -/
theorem c3_counterexample :
    Option.map (fun p => closeIds p.1)
      (runEvents oneRungState [Event.trialCreated 7,
        Event.trialExitedEarly 7 ExitedReason.invalidHp,
        Event.trialExitedEarly 7 ExitedReason.invalidHp]) = some [7, 7] ∧
    ¬ ([7, 7] : List Nat).Nodup := by decide

/-! ### C4 counterexample: net pending count -/

/-- C4 amended: when TrialExitedEarly(trialId, INVALID_HP) is handled for a
trial registered at rung `r`, the handler removes the trial metric entries of
that trial from every rung `0..r` inclusive, decrements the outstanding count
of rung `r` by one, adds the trial to closedTrials and earlyExitTrials and
increments invalidTrials, registers exactly one fresh replacement trial at
rung 0 (incrementing pendingTrials back after the initial decrement for the
exiting trial, so pendingTrials is net unchanged), and returns exactly
[Close(trialId), Create(freshId), ValidateAfter(freshId, unitsNeeded[0])]. -/
theorem c4_amended (s : SearchState) (rid r : Nat)
    (h1 : trLookup s.trial_rungs rid = some r) (h2 : r < s.rungs.length) :
    InvalidHpPost s rid r h2 := by
  unfold InvalidHpPost on_trial_exited_early
  dsimp only []
  rw [h1]
  dsimp only []
  rw [List.getElem?_eq_getElem h2]
  dsimp only [reduceIte]
  set rungA : Rung := { units_needed := s.rungs[r].units_needed, idx := s.rungs[r].idx, metrics := s.rungs[r].metrics, outstanding_trials := s.rungs[r].outstanding_trials - 1 } with hA
  set f : Nat → Rung → Rung := fun i r_1 => if i ≤ r then { units_needed := r_1.units_needed, idx := r_1.idx, metrics := purgeMetrics rid r_1.metrics, outstanding_trials := r_1.outstanding_trials } else r_1 with hf
  have hslen : (s.rungs.set r rungA).length = s.rungs.length := List.length_set _ _ _
  have hplen : (List.mapIdx f (s.rungs.set r rungA)).length = s.rungs.length := by
    rw [List.length_mapIdx, hslen]
  have h00 : 0 < s.rungs.length := Nat.lt_of_le_of_lt (Nat.zero_le r) h2
  have h0 : 0 < (List.mapIdx f (s.rungs.set r rungA)).length := by omega
  rw [List.getElem?_eq_getElem h0]
  dsimp only []
  have hgen : ∀ i (hi : i < s.rungs.length) (hi' : i < (List.mapIdx f (s.rungs.set r rungA)).length),
      (List.mapIdx f (s.rungs.set r rungA))[i] =
        f i (if r = i then rungA else s.rungs[i]) := by
    intro i hi hi'
    have hsi : i < (s.rungs.set r rungA).length := by omega
    have := List.get_mapIdx (s.rungs.set r rungA) f i hsi hi'
    simp only [List.get_eq_getElem] at this
    rw [this, List.getElem_set]
  have hu0 : (List.mapIdx f (s.rungs.set r rungA))[0].units_needed = (s.rungs.get ⟨0, h00⟩).units_needed := by
    rw [hgen 0 h00 h0]
    rcases Nat.eq_zero_or_pos r with hr0 | hrpos
    · subst hr0
      simp [hf, hA]
    · have hne : r ≠ 0 := by omega
      simp [hf, hne, List.get_eq_getElem]
  refine ⟨{ max_length := s.max_length, max_trials := s.max_trials, num_rungs := s.num_rungs, divisor := s.divisor, max_concurrent_trials := s.max_concurrent_trials, is_smaller_better := s.is_smaller_better, rungs := List.mapIdx f (s.rungs.set r rungA), trial_rungs := trUpdate s.trial_rungs s.next_id 0, pending_trials := s.pending_trials - 1 + 1, completed_trials := s.completed_trials, invalid_trials := s.invalid_trials + 1, early_exit_trials := setAdd s.early_exit_trials rid, closed_trials := setAdd s.closed_trials rid, next_id := s.next_id + 1 }, ?_, by dsimp only []; omega, rfl, rfl, rfl, rfl, rfl, rfl, hplen, ?_⟩
  · rw [hu0]
    exact if_pos rfl
  · intro i hi hi'
    have hx := hgen i hi (by omega)
    simp only [List.get_eq_getElem] at hx ⊢
    rw [hx]
    by_cases hir : i ≤ r
    · by_cases hieq : r = i
      · subst hieq
        simp [hf, hA, hir]
      · have hir2 : ¬ i = r := fun h => hieq h.symm
        simp [hf, hA, hir, hieq, hir2]
    · have hne : r ≠ i := by omega
      have hne2 : ¬ i = r := by omega
      simp [hf, hir, hne, hne2]

/-- Witness for C4 amended: trial 1 of the concrete two-rung state is
registered at rung 1, and the post-state description holds there. -/
theorem c4_amended_witness :
    trLookup twoRungState.trial_rungs 1 = some 1 ∧
    1 < twoRungState.rungs.length ∧
    InvalidHpPost twoRungState 1 1 Nat.one_lt_two :=
  ⟨rfl, Nat.one_lt_two, c4_amended twoRungState 1 1 rfl Nat.one_lt_two⟩

/-- C4 counterexample: handling TrialExitedEarly(1, INVALID_HP) on a state
with pendingTrials = 5 leaves pendingTrials = 5 (the handler first
decrements it for the exiting trial and then increments it for the
replacement), not 6, refuting the claimed net increment. -/
theorem c4_counterexample :
    Option.map (fun p => p.2.pending_trials)
        (on_trial_exited_early twoRungState 1 ExitedReason.invalidHp) = some 5 ∧
    Option.map (fun p => p.2.pending_trials)
        (on_trial_exited_early twoRungState 1 ExitedReason.invalidHp) ≠
      some (5 + 1) := by decide

/-! ### C1 machinery: sorted insertion and the promoted prefix -/

theorem getElem_insertIdx_gt (l : List TrialMetric) (x : TrialMetric) (n k : Nat)
    (hn : n < k) (hk : k - 1 < l.length)
    (hk2 : k < (List.insertIdx n x l).length) :
    (List.insertIdx n x l)[k] = l.get ⟨k - 1, hk⟩ := by
  obtain ⟨j, rfl⟩ : ∃ j, k = n + j + 1 := ⟨k - n - 1, by omega⟩
  have hj : n + j < l.length := by omega
  rw [List.getElem_insertIdx_add_succ l x n j hj]
  simp only [List.get_eq_getElem]
  congr 1

theorem metricsSorted_set (l : List TrialMetric) (k : Nat) (tm2 : TrialMetric)
    (hk : k < l.length) (hm : tm2.metric = (l.get ⟨k, hk⟩).metric)
    (hs : MetricsSorted l) : MetricsSorted (l.set k tm2) := by
  have hs2 : l.Pairwise (fun a b : TrialMetric => a.metric ≤ b.metric) := hs
  have hpw := List.pairwise_iff_getElem.mp hs2
  show (l.set k tm2).Pairwise (fun a b : TrialMetric => a.metric ≤ b.metric)
  rw [List.pairwise_iff_getElem]
  intro a b ha hb hab
  rw [List.length_set] at ha hb
  rw [List.getElem_set, List.getElem_set]
  simp only [List.get_eq_getElem] at hm
  by_cases hka : k = a
  · subst hka
    rw [if_pos rfl, if_neg (by omega)]
    rw [hm]
    exact hpw k b ha hb hab
  · rw [if_neg hka]
    by_cases hkb : k = b
    · subst hkb
      rw [if_pos rfl, hm]
      exact hpw a k ha hb hab
    · rw [if_neg hkb]
      exact hpw a b ha hb hab

theorem metricsSorted_insertIdx (l : List TrialMetric) (x : TrialMetric) (idx : Nat)
    (hlen : idx ≤ l.length)
    (hchar : ∀ k (hk : k < l.length), ((l.get ⟨k, hk⟩).metric ≤ x.metric ↔ k < idx))
    (hs : MetricsSorted l) : MetricsSorted (List.insertIdx idx x l) := by
  have hs2 : l.Pairwise (fun a b : TrialMetric => a.metric ≤ b.metric) := hs
  have hpw := List.pairwise_iff_getElem.mp hs2
  have hlen2 : (List.insertIdx idx x l).length = l.length + 1 :=
    List.length_insertIdx idx l hlen
  show (List.insertIdx idx x l).Pairwise (fun a b : TrialMetric => a.metric ≤ b.metric)
  rw [List.pairwise_iff_getElem]
  intro a b ha hb hab
  rw [hlen2] at ha hb
  simp only [List.get_eq_getElem] at hchar
  rcases Nat.lt_trichotomy a idx with hai | hai | hai
  · have hal : a < l.length := by omega
    rw [List.getElem_insertIdx_of_lt l x idx a hai hal]
    rcases Nat.lt_trichotomy b idx with hbi | hbi | hbi
    · have hbl : b < l.length := by omega
      rw [List.getElem_insertIdx_of_lt l x idx b hbi hbl]
      exact hpw a b hal hbl hab
    · subst hbi
      rw [List.getElem_insertIdx_self l x b hlen]
      exact (hchar a hal).mpr hai
    · have hbl : b - 1 < l.length := by omega
      rw [getElem_insertIdx_gt l x idx b hbi hbl]
      simp only [List.get_eq_getElem]
      by_cases hb1 : a < b - 1
      · exact hpw a (b - 1) hal hbl hb1
      · have : a = b - 1 := by omega
        subst this
        exact le_rfl
  · subst hai
    rw [List.getElem_insertIdx_self l x a hlen]
    rcases Nat.lt_trichotomy b a with hbi | hbi | hbi
    · omega
    · omega
    · have hbl : b - 1 < l.length := by omega
      rw [getElem_insertIdx_gt l x a b hbi hbl]
      simp only [List.get_eq_getElem]
      have hge : ¬ b - 1 < a := by omega
      exact le_of_lt (lt_of_not_le (fun hle => hge ((hchar (b - 1) hbl).mp hle)))
  · have hal : a - 1 < l.length := by omega
    have hbl : b - 1 < l.length := by omega
    rw [getElem_insertIdx_gt l x idx a hai hal, getElem_insertIdx_gt l x idx b (by omega) hbl]
    simp only [List.get_eq_getElem]
    exact hpw (a - 1) (b - 1) hal hbl (by omega)

theorem promotions_async_step (r : Rung) (rid : Nat) (m : ℚ) (d : Nat) (hd : 1 ≤ d)
    (hs : MetricsSorted r.metrics) (hp : PromotedPrefix d r.metrics) :
    ((r.promotions_async rid m d).2).metrics.length = r.metrics.length + 1 ∧
    MetricsSorted ((r.promotions_async rid m d).2).metrics ∧
    PromotedPrefix d ((r.promotions_async rid m d).2).metrics := by
  obtain ⟨hidxle, hchar⟩ := c7_search_metric_index r m hs
  have hq2cases : (r.metrics.length + 1) / d = r.metrics.length / d ∨
      (r.metrics.length + 1) / d = r.metrics.length / d + 1 := by
    rw [Nat.succ_div]
    split <;> omega
  have hqlen : r.metrics.length / d ≤ r.metrics.length := Nat.div_le_self _ d
  have hmslen : ∀ tm : TrialMetric,
      (r.metrics.insertIdx (r.search_metric_index m) tm).length = r.metrics.length + 1 :=
    fun tm => List.length_insertIdx _ r.metrics hidxle
  by_cases hpn : r.search_metric_index m < (r.metrics.length + 1) / d
  · -- promote_now: the new entry is inserted promoted
    have hres : ((r.promotions_async rid m d).2).metrics =
        r.metrics.insertIdx (r.search_metric_index m)
          { request_id := rid, metric := m,
            promoted := decide (r.search_metric_index m < (r.metrics.length + 1) / d) } := by
      unfold Rung.promotions_async
      dsimp only []
      rw [if_pos hpn]
    rw [hres]
    refine ⟨hmslen _, ?_, ?_⟩
    · exact metricsSorted_insertIdx r.metrics _ _ hidxle (by simpa using hchar) hs
    · intro k hk hkq
      rw [hmslen] at hk hkq
      simp only [List.get_eq_getElem]
      rcases Nat.lt_trichotomy k (r.search_metric_index m) with hki | hki | hki
      · have hkl : k < r.metrics.length := by omega
        rw [List.getElem_insertIdx_of_lt _ _ _ _ hki hkl]
        have : k < r.metrics.length / d := by omega
        simpa [List.get_eq_getElem] using hp k hkl this
      · subst hki
        rw [List.getElem_insertIdx_self _ _ _ hidxle]
        simpa using hpn
      · have hkl : k - 1 < r.metrics.length := by omega
        rw [getElem_insertIdx_gt _ _ _ _ hki hkl (by rw [hmslen]; omega)]
        have : k - 1 < r.metrics.length / d := by omega
        simpa [List.get_eq_getElem] using hp (k - 1) hkl this
  · by_cases hneq : (r.metrics.length + 1) / d ≠ r.metrics.length / d
    · -- quota grew by one: retroactive promotion of the entry at the old quota
      have hq2 : (r.metrics.length + 1) / d = r.metrics.length / d + 1 := by
        rcases hq2cases with h | h
        · exact absurd h hneq
        · exact h
      have hqidx : r.metrics.length / d < r.search_metric_index m := by omega
      have hqlen2 : r.metrics.length / d < r.metrics.length := by omega
      have hflagtm : decide (r.search_metric_index m < (r.metrics.length + 1) / d) = false := by
        simpa using hpn
      have hb : r.metrics.length / d <
          (r.metrics.insertIdx (r.search_metric_index m)
            { request_id := rid, metric := m,
              promoted := decide (r.search_metric_index m < (r.metrics.length + 1) / d) }).length := by
        rw [hmslen]
        omega
      have hq_in : (r.metrics.insertIdx (r.search_metric_index m)
            { request_id := rid, metric := m,
              promoted := decide (r.search_metric_index m < (r.metrics.length + 1) / d) })[r.metrics.length / d] =
          r.metrics.get ⟨r.metrics.length / d, hqlen2⟩ := by
        rw [List.getElem_insertIdx_of_lt _ _ _ _ hqidx hqlen2]
        simp [List.get_eq_getElem]
      -- common facts about the inserted list
      have hins_sorted : MetricsSorted (r.metrics.insertIdx (r.search_metric_index m)
          { request_id := rid, metric := m,
            promoted := decide (r.search_metric_index m < (r.metrics.length + 1) / d) }) :=
        metricsSorted_insertIdx r.metrics _ _ hidxle (by simpa using hchar) hs
      have hins_prefix : ∀ k (hk2 : k < r.metrics.length + 1), k < r.metrics.length / d + 1 →
          k ≠ r.metrics.length / d →
          ((r.metrics.insertIdx (r.search_metric_index m)
            { request_id := rid, metric := m,
              promoted := decide (r.search_metric_index m < (r.metrics.length + 1) / d) }).get
              ⟨k, by rw [hmslen]; omega⟩).promoted = true := by
        intro k hk2 hkq hkne
        have hki : k < r.search_metric_index m := by omega
        have hkl : k < r.metrics.length := by omega
        simp only [List.get_eq_getElem]
        rw [List.getElem_insertIdx_of_lt _ _ _ _ hki hkl]
        have : k < r.metrics.length / d := by omega
        simpa [List.get_eq_getElem] using hp k hkl this
      by_cases hflag : (r.metrics.get ⟨r.metrics.length / d, hqlen2⟩).promoted = false
      · -- the entry at the old quota is retroactively promoted
        have hres : ((r.promotions_async rid m d).2).metrics =
            (r.metrics.insertIdx (r.search_metric_index m)
              { request_id := rid, metric := m,
                promoted := decide (r.search_metric_index m < (r.metrics.length + 1) / d) }).set
              (r.metrics.length / d)
              { request_id := (r.metrics.get ⟨r.metrics.length / d, hqlen2⟩).request_id,
                metric := (r.metrics.get ⟨r.metrics.length / d, hqlen2⟩).metric,
                promoted := true } := by
          unfold Rung.promotions_async
          dsimp only []
          rw [if_neg hpn, if_pos hneq, List.getElem?_eq_getElem hb]
          dsimp only []
          rw [hq_in]
          rw [if_pos hflag]
        rw [hres]
        have hsetlen : ((r.metrics.insertIdx (r.search_metric_index m)
            { request_id := rid, metric := m,
              promoted := decide (r.search_metric_index m < (r.metrics.length + 1) / d) }).set
              (r.metrics.length / d)
              { request_id := (r.metrics.get ⟨r.metrics.length / d, hqlen2⟩).request_id,
                metric := (r.metrics.get ⟨r.metrics.length / d, hqlen2⟩).metric,
                promoted := true }).length = r.metrics.length + 1 := by
          rw [List.length_set, hmslen]
        refine ⟨hsetlen, ?_, ?_⟩
        · refine metricsSorted_set _ _ _ hb ?_ hins_sorted
          simp only [List.get_eq_getElem]
          rw [hq_in]
          simp [List.get_eq_getElem]
        · intro k hk hkq
          rw [hsetlen] at hk
          rw [hsetlen, hq2] at hkq
          simp only [List.get_eq_getElem, List.getElem_set]
          by_cases hkis : r.metrics.length / d = k
          · rw [if_pos hkis]
          · rw [if_neg hkis]
            have := hins_prefix k (by omega) (by omega) (fun h => hkis h.symm)
            simpa [List.get_eq_getElem] using this
      · -- the entry at the old quota was already promoted: nothing returned
        have hflag2 : (r.metrics.get ⟨r.metrics.length / d, hqlen2⟩).promoted = true := by
          cases hx : (r.metrics.get ⟨r.metrics.length / d, hqlen2⟩).promoted
          · exact absurd hx hflag
          · rfl
        have hres : ((r.promotions_async rid m d).2).metrics =
            r.metrics.insertIdx (r.search_metric_index m)
              { request_id := rid, metric := m,
                promoted := decide (r.search_metric_index m < (r.metrics.length + 1) / d) } := by
          unfold Rung.promotions_async
          dsimp only []
          rw [if_neg hpn, if_pos hneq, List.getElem?_eq_getElem hb]
          dsimp only []
          rw [hq_in]
          rw [if_neg (by simpa [List.get_eq_getElem] using hflag2)]
        rw [hres]
        refine ⟨hmslen _, hins_sorted, ?_⟩
        intro k hk hkq
        rw [hmslen] at hk
        rw [hmslen, hq2] at hkq
        by_cases hkis : k = r.metrics.length / d
        · subst hkis
          simp only [List.get_eq_getElem]
          rw [hq_in]
          simpa [List.get_eq_getElem] using hflag2
        · exact hins_prefix k (by omega) (by omega) hkis
    · -- quota unchanged: plain unpromoted insertion
      have hq2 : (r.metrics.length + 1) / d = r.metrics.length / d := by omega
      have hres : ((r.promotions_async rid m d).2).metrics =
          r.metrics.insertIdx (r.search_metric_index m)
            { request_id := rid, metric := m,
              promoted := decide (r.search_metric_index m < (r.metrics.length + 1) / d) } := by
        unfold Rung.promotions_async
        dsimp only []
        rw [if_neg hpn, if_neg (by omega : ¬ (r.metrics.length + 1) / d ≠ r.metrics.length / d)]
      rw [hres]
      refine ⟨hmslen _, ?_, ?_⟩
      · exact metricsSorted_insertIdx r.metrics _ _ hidxle (by simpa using hchar) hs
      · intro k hk hkq
        rw [hmslen] at hk hkq
        simp only [List.get_eq_getElem]
        have hki : k < r.search_metric_index m := by omega
        have hkl : k < r.metrics.length := by omega
        rw [List.getElem_insertIdx_of_lt _ _ _ _ hki hkl]
        have : k < r.metrics.length / d := by omega
        simpa [List.get_eq_getElem] using hp k hkl this



theorem countP_ge_of_prefix (l : List TrialMetric) (d : Nat) (hp : PromotedPrefix d l) :
    l.length / d ≤ l.countP (fun tm => tm.promoted) := by
  have hq : l.length / d ≤ l.length := Nat.div_le_self _ d
  have hsplit := List.take_append_drop (l.length / d) l
  have hcount : l.countP (fun tm => tm.promoted) =
      (l.take (l.length / d)).countP (fun tm => tm.promoted) +
      (l.drop (l.length / d)).countP (fun tm => tm.promoted) := by
    conv_lhs => rw [← hsplit]
    exact List.countP_append _ _ _
  have htlen : (l.take (l.length / d)).length = l.length / d := by
    rw [List.length_take]
    omega
  have hfull : (l.take (l.length / d)).countP (fun tm => tm.promoted) =
      (l.take (l.length / d)).length := by
    rw [List.countP_eq_length]
    intro a ha
    obtain ⟨i, hi, rfl⟩ := List.mem_iff_getElem.mp ha
    rw [htlen] at hi
    have hil : i < l.length := by omega
    rw [List.getElem_take]
    simpa [List.get_eq_getElem] using hp i hil hi
  omega

theorem c1_aux (d : Nat) (hd : 1 ≤ d) :
    ∀ (ins : List (Nat × ℚ)) (r : Rung), MetricsSorted r.metrics →
      PromotedPrefix d r.metrics →
      (runInserts d r ins).metrics.length = r.metrics.length + ins.length ∧
      MetricsSorted (runInserts d r ins).metrics ∧
      PromotedPrefix d (runInserts d r ins).metrics := by
  intro ins
  induction ins with
  | nil =>
    intro r hs hp
    exact ⟨by simp [runInserts], hs, hp⟩
  | cons p rest ih =>
    intro r hs hp
    obtain ⟨hlen, hs2, hp2⟩ := promotions_async_step r p.1 p.2 d hd hs hp
    have hstep : runInserts d r (p :: rest) =
        runInserts d ((r.promotions_async p.1 p.2 d).2) rest := rfl
    rw [hstep]
    obtain ⟨ihlen, ihs, ihp⟩ := ih ((r.promotions_async p.1 p.2 d).2) hs2 hp2
    refine ⟨?_, ihs, ihp⟩
    rw [ihlen, hlen, List.length_cons]
    omega

/-- C1 amended: for every reduction factor d at least 1 and every sequence of
n insertions into an initially empty rung through the Promotion Engine
(`promotions_async`), after the n-th insertion the rung holds n entries,
sorted ascending, AT LEAST floor(n/d) of them are promoted, and the
floor(n/d) numerically smallest entries (the first floor(n/d) positions of
the sorted list) are all promoted — independently of the arrival order.  The
original claim of EXACTLY floor(n/d) promoted entries is refuted by
`c1_counterexample`: a late-arriving small metric is inserted promoted even
when the quota did not grow, so the promoted count can exceed the quota. -/
theorem c1_amended (d : Nat) (hd : 1 ≤ d) (ins : List (Nat × ℚ)) (r : Rung)
    (hempty : r.metrics = []) :
    (runInserts d r ins).metrics.length = ins.length ∧
    MetricsSorted (runInserts d r ins).metrics ∧
    (∀ k (hk : k < (runInserts d r ins).metrics.length), k < ins.length / d →
      ((runInserts d r ins).metrics.get ⟨k, hk⟩).promoted = true) ∧
    ins.length / d ≤ (runInserts d r ins).metrics.countP (fun tm => tm.promoted) := by
  have hs0 : MetricsSorted r.metrics := by rw [hempty]; exact List.Pairwise.nil
  have hp0 : PromotedPrefix d r.metrics := by
    intro k hk hkq
    rw [hempty] at hk
    exact absurd hk (by simp)
  obtain ⟨hlen, hs, hp⟩ := c1_aux d hd ins r hs0 hp0
  rw [hempty] at hlen
  simp only [List.length_nil, Nat.zero_add] at hlen
  refine ⟨hlen, hs, ?_, ?_⟩
  · intro k hk hkq
    exact hp k hk (by rw [hlen]; omega)
  · have := countP_ge_of_prefix (runInserts d r ins).metrics d hp
    rw [hlen] at this
    exact this

/-- Witness for C1 amended at reduction factor 2 with four insertions. -/
theorem c1_amended_witness :
    1 ≤ 2 ∧ c1Rung.metrics = [] ∧
    ((runInserts 2 c1Rung c1Ins).metrics.length = c1Ins.length ∧
     MetricsSorted (runInserts 2 c1Rung c1Ins).metrics ∧
     (∀ k (hk : k < (runInserts 2 c1Rung c1Ins).metrics.length), k < c1Ins.length / 2 →
       ((runInserts 2 c1Rung c1Ins).metrics.get ⟨k, hk⟩).promoted = true) ∧
     c1Ins.length / 2 ≤ (runInserts 2 c1Rung c1Ins).metrics.countP (fun tm => tm.promoted)) :=
  ⟨by decide, rfl, c1_amended 2 (by decide) c1Ins c1Rung rfl⟩

/-! ### C2 machinery: the sorted-below-top invariant -/

theorem metricsSorted_filter (l : List TrialMetric) (p : TrialMetric → Bool)
    (hs : MetricsSorted l) : MetricsSorted (l.filter p) := by
  have hs2 : l.Pairwise (fun a b : TrialMetric => a.metric ≤ b.metric) := hs
  exact List.Pairwise.sublist (List.filter_sublist l) hs2

/-- Sortedness is preserved by one Promotion Engine insertion, for any
divisor: the new entry is placed at the binary search index, and a
retroactive promotion only flips the promoted flag of an entry, leaving its
metric unchanged. -/
theorem promotions_async_sorted (r : Rung) (rid : Nat) (m : ℚ) (d : Nat)
    (hs : MetricsSorted r.metrics) :
    MetricsSorted ((r.promotions_async rid m d).2).metrics := by
  obtain ⟨hidxle, hchar⟩ := c7_search_metric_index r m hs
  have hmslen : ∀ tm : TrialMetric,
      (r.metrics.insertIdx (r.search_metric_index m) tm).length = r.metrics.length + 1 :=
    fun tm => List.length_insertIdx _ r.metrics hidxle
  have hins_sorted : ∀ b : Bool, MetricsSorted (r.metrics.insertIdx (r.search_metric_index m)
      { request_id := rid, metric := m, promoted := b }) :=
    fun b => metricsSorted_insertIdx r.metrics _ _ hidxle (by simpa using hchar) hs
  by_cases hpn : r.search_metric_index m < (r.metrics.length + 1) / d
  · have hres : ((r.promotions_async rid m d).2).metrics =
        r.metrics.insertIdx (r.search_metric_index m)
          { request_id := rid, metric := m,
            promoted := decide (r.search_metric_index m < (r.metrics.length + 1) / d) } := by
      unfold Rung.promotions_async
      dsimp only []
      rw [if_pos hpn]
    rw [hres]
    exact hins_sorted _
  · by_cases hneq : (r.metrics.length + 1) / d ≠ r.metrics.length / d
    · have hq2 : (r.metrics.length + 1) / d = r.metrics.length / d + 1 := by
        rw [Nat.succ_div]
        rw [Nat.succ_div] at hneq
        split at hneq
        · split
          · rfl
          · simp_all
        · simp_all
      have hqidx : r.metrics.length / d < r.search_metric_index m := by omega
      have hqlen2 : r.metrics.length / d < r.metrics.length := by omega
      have hb : r.metrics.length / d <
          (r.metrics.insertIdx (r.search_metric_index m)
            { request_id := rid, metric := m,
              promoted := decide (r.search_metric_index m < (r.metrics.length + 1) / d) }).length := by
        rw [hmslen]
        omega
      have hq_in : (r.metrics.insertIdx (r.search_metric_index m)
            { request_id := rid, metric := m,
              promoted := decide (r.search_metric_index m < (r.metrics.length + 1) / d) })[r.metrics.length / d] =
          r.metrics.get ⟨r.metrics.length / d, hqlen2⟩ := by
        rw [List.getElem_insertIdx_of_lt _ _ _ _ hqidx hqlen2]
        simp [List.get_eq_getElem]
      by_cases hflag : (r.metrics.get ⟨r.metrics.length / d, hqlen2⟩).promoted = false
      · have hres : ((r.promotions_async rid m d).2).metrics =
            (r.metrics.insertIdx (r.search_metric_index m)
              { request_id := rid, metric := m,
                promoted := decide (r.search_metric_index m < (r.metrics.length + 1) / d) }).set
              (r.metrics.length / d)
              { request_id := (r.metrics.get ⟨r.metrics.length / d, hqlen2⟩).request_id,
                metric := (r.metrics.get ⟨r.metrics.length / d, hqlen2⟩).metric,
                promoted := true } := by
          unfold Rung.promotions_async
          dsimp only []
          rw [if_neg hpn, if_pos hneq, List.getElem?_eq_getElem hb]
          dsimp only []
          rw [hq_in]
          rw [if_pos hflag]
        rw [hres]
        refine metricsSorted_set _ _ _ hb ?_ (hins_sorted _)
        simp only [List.get_eq_getElem]
        rw [hq_in]
        simp [List.get_eq_getElem]
      · have hflag2 : (r.metrics.get ⟨r.metrics.length / d, hqlen2⟩).promoted = true := by
          cases hx : (r.metrics.get ⟨r.metrics.length / d, hqlen2⟩).promoted
          · exact absurd hx hflag
          · rfl
        have hres : ((r.promotions_async rid m d).2).metrics =
            r.metrics.insertIdx (r.search_metric_index m)
              { request_id := rid, metric := m,
                promoted := decide (r.search_metric_index m < (r.metrics.length + 1) / d) } := by
          unfold Rung.promotions_async
          dsimp only []
          rw [if_neg hpn, if_pos hneq, List.getElem?_eq_getElem hb]
          dsimp only []
          rw [hq_in]
          rw [if_neg (by simpa [List.get_eq_getElem] using hflag2)]
        rw [hres]
        exact hins_sorted _
    · have hres : ((r.promotions_async rid m d).2).metrics =
          r.metrics.insertIdx (r.search_metric_index m)
            { request_id := rid, metric := m,
              promoted := decide (r.search_metric_index m < (r.metrics.length + 1) / d) } := by
        unfold Rung.promotions_async
        dsimp only []
        rw [if_neg hpn, if_neg hneq]
      rw [hres]
      exact hins_sorted _

/-- The tail of `_promote_async` (replacement creation and shutdown sweep)
never touches the rungs list, the rung count, the divisor or the early-exit
set. -/
theorem promote_tail_rungs (s : SearchState) (ops : List Operation) (added : Bool)
    (ops2 : List Operation) (s2 : SearchState)
    (h : promote_tail s ops added = some (ops2, s2)) :
    s2.rungs = s.rungs ∧ s2.num_rungs = s.num_rungs ∧ s2.divisor = s.divisor ∧
    s2.early_exit_trials = s.early_exit_trials := by
  unfold promote_tail at h
  dsimp only [] at h
  rcases hr0 : s.rungs[0]? with _ | rung0 <;> rw [hr0] at h <;>
    by_cases hA : added = false ∧ (s.trial_rungs.length : Int) - s.invalid_trials < s.max_trials
  · rw [if_pos hA] at h
    dsimp only [] at h
    exact absurd h (by simp)
  · rw [if_neg hA] at h
    dsimp only [] at h
    rw [hr0] at h
    dsimp only [] at h
    exact absurd h (by simp)
  · rw [if_pos hA] at h
    dsimp only [] at h
    rw [hr0] at h
    dsimp only [] at h
    split at h <;> cases h <;> exact ⟨rfl, rfl, rfl, rfl⟩
  · rw [if_neg hA] at h
    dsimp only [] at h
    rw [hr0] at h
    dsimp only [] at h
    split at h <;> cases h <;> exact ⟨rfl, rfl, rfl, rfl⟩

theorem sortedBelowTop_get (s : SearchState) (hinv : RungsSortedBelowTop s)
    (i : Nat) (hi1 : i + 1 < s.rungs.length) (r : Rung)
    (hr : s.rungs[i]? = some r) : MetricsSorted r.metrics := by
  have := hinv.2 i (by omega)
  rw [hr] at this
  simpa using this

theorem sortedBelowTop_set (s : SearchState) (idx : Nat) (r2 : Rung)
    (hinv : RungsSortedBelowTop s)
    (h : idx + 1 < s.rungs.length → MetricsSorted r2.metrics) :
    RungsSortedBelowTop { s with rungs := s.rungs.set idx r2 } := by
  obtain ⟨hlen, hsort⟩ := hinv
  refine ⟨by simpa using hlen, ?_⟩
  intro i hi
  simp only [List.length_set] at hi
  have hil : i < s.rungs.length := by omega
  have hil2 : i < (s.rungs.set idx r2).length := by
    rw [List.length_set]
    omega
  rw [List.getElem?_eq_getElem hil2]
  rw [List.getElem_set]
  by_cases hidx : idx = i
  · rw [if_pos hidx]
    subst hidx
    simpa using h (by omega)
  · rw [if_neg hidx]
    have := hsort i hi
    rw [List.getElem?_eq_getElem hil] at this
    simpa using this

theorem sortedBelowTop_rungsModify (s : SearchState) (idx : Nat) (f : Rung → Rung)
    (hf : ∀ r, (f r).metrics = r.metrics)
    (hinv : RungsSortedBelowTop s) :
    RungsSortedBelowTop { s with rungs := rungsModify s.rungs idx f } := by
  unfold rungsModify
  rcases hr : s.rungs[idx]? with _ | r0
  · dsimp only []
    exact hinv
  · dsimp only []
    refine sortedBelowTop_set s idx (f r0) hinv ?_
    intro h1
    rw [hf]
    exact sortedBelowTop_get s hinv idx h1 r0 hr

theorem promote_loop_sortedBelowTop
    (cascade : SearchState → Nat → ℚ → Option (List Operation × SearchState))
    (hcasc : ∀ t p m ops2 t2, cascade t p m = some (ops2, t2) →
      RungsSortedBelowTop t → RungsSortedBelowTop t2)
    (rung_idx : Nat) (ru nu : Int) :
    ∀ (lst : List Nat) (s : SearchState) (ops : List Operation) (added : Bool)
      (ops2 : List Operation) (s2 : SearchState),
      promote_loop cascade rung_idx ru nu lst s ops added = some (ops2, s2) →
      RungsSortedBelowTop s → RungsSortedBelowTop s2 := by
  intro lst
  induction lst with
  | nil =>
    intro s ops added ops2 s2 h hinv
    obtain ⟨hr, hn, _, _⟩ := promote_tail_rungs s ops added ops2 s2 h
    obtain ⟨hlen, hsort⟩ := hinv
    constructor
    · rw [hr, hn]
      exact hlen
    · rw [hr]
      exact hsort
  | cons p rest ih =>
    intro s ops added ops2 s2 h hinv
    rw [promote_loop] at h
    dsimp only [] at h
    have hinv2 : RungsSortedBelowTop { s with
        trial_rungs := trUpdate s.trial_rungs p (rung_idx + 1),
        rungs := rungsModify s.rungs (rung_idx + 1)
          (fun r => { r with outstanding_trials := r.outstanding_trials + 1 }) } :=
      sortedBelowTop_rungsModify
        { s with trial_rungs := trUpdate s.trial_rungs p (rung_idx + 1) }
        (rung_idx + 1) (fun r => { r with outstanding_trials := r.outstanding_trials + 1 })
        (fun r => rfl) hinv
    split at h
    · exact hcasc _ p _ ops2 s2 h hinv2
    · exact ih _ _ _ ops2 s2 h hinv2



theorem promote_async_sortedBelowTop :
    ∀ (fuel : Nat) (s : SearchState) (rid : Nat) (m : ℚ)
      (ops2 : List Operation) (s2 : SearchState),
      promote_async s rid m fuel = some (ops2, s2) →
      RungsSortedBelowTop s → RungsSortedBelowTop s2 := by
  intro fuel
  induction fuel with
  | zero =>
    intro s rid m ops2 s2 h hinv
    cases h
  | succ fuel ih =>
    intro s rid m ops2 s2 h hinv
    rw [promote_async] at h
    dsimp only [] at h
    rcases hlk : trLookup s.trial_rungs rid with _ | rung_idx <;> rw [hlk] at h
    · cases h
    · dsimp only [] at h
      rcases hri : s.rungs[rung_idx]? with _ | rung0 <;> rw [hri] at h
      · cases h
      · dsimp only [] at h
        have hrunglt : rung_idx < s.rungs.length := by
          by_contra hc
          rw [List.getElem?_eq_none (by omega)] at hri
          cases hri
        by_cases htop : rung_idx = s.num_rungs - 1
        · rw [if_pos htop] at h
          rw [List.set_set] at h
          have hlen0 := hinv.1
          have hinv1 := sortedBelowTop_set s rung_idx { units_needed := rung0.units_needed, idx := rung0.idx, metrics := rung0.metrics ++ [{ request_id := rid, metric := m, promoted := false }], outstanding_trials := rung0.outstanding_trials - 1 } hinv (fun hlt => absurd hlt (by omega))
          split at h
          · obtain ⟨hr, hn, _, _⟩ := promote_tail_rungs _ _ _ _ _ h
            exact ⟨by rw [hr, hn]; exact hinv1.1, by rw [hr]; exact hinv1.2⟩
          · obtain ⟨hr, hn, _, _⟩ := promote_tail_rungs _ _ _ _ _ h
            exact ⟨by rw [hr, hn]; exact hinv1.1, by rw [hr]; exact hinv1.2⟩
        · rw [if_neg htop] at h
          rcases hnext : (s.rungs.set rung_idx { units_needed := rung0.units_needed, idx := rung0.idx, metrics := rung0.metrics, outstanding_trials := rung0.outstanding_trials - 1 })[rung_idx + 1]? with _ | next_rung <;> rw [hnext] at h
          · cases h
          · dsimp only [] at h
            rw [List.set_set] at h
            refine promote_loop_sortedBelowTop _ (fun t p mm o t2 hc hi => ih t p mm o t2 hc hi) rung_idx _ _ _ _ _ _ _ _ h ?_
            refine sortedBelowTop_set s rung_idx _ hinv ?_
            intro hlt
            exact promotions_async_sorted _ rid m s.divisor (sortedBelowTop_get s hinv rung_idx hlt rung0 hri)



theorem initial_operations_loop_rungs :
    ∀ (n : Nat) (s : SearchState) (ops2 : List Operation) (s2 : SearchState),
      initial_operations_loop s n = some (ops2, s2) →
      s2.rungs = s.rungs ∧ s2.num_rungs = s.num_rungs := by
  intro n
  induction n with
  | zero =>
    intro s ops2 s2 h
    cases h
    exact ⟨rfl, rfl⟩
  | succ n ih =>
    intro s ops2 s2 h
    rw [initial_operations_loop] at h
    dsimp only [] at h
    rcases hr0 : s.rungs[0]? with _ | rung0 <;> rw [hr0] at h
    · cases h
    · dsimp only [] at h
      rcases hrec : initial_operations_loop { s with next_id := s.next_id + 1, trial_rungs := trUpdate s.trial_rungs s.next_id 0, pending_trials := s.pending_trials + 1 } n with _ | p <;> rw [hrec] at h
      · cases h
      · rcases p with ⟨ops3, s3⟩
        dsimp only [] at h
        cases h
        obtain ⟨h1, h2⟩ := ih _ _ _ hrec
        exact ⟨h1, h2⟩

theorem sortedBelowTop_purge (s : SearchState) (rid : Nat) (hcut : Nat)
    (hinv : RungsSortedBelowTop s) :
    RungsSortedBelowTop { s with rungs := s.rungs.mapIdx (fun i r =>
      if i ≤ hcut then { r with metrics := purgeMetrics rid r.metrics } else r) } := by
  obtain ⟨hlen, hsort⟩ := hinv
  refine ⟨by rw [List.length_mapIdx]; exact hlen, ?_⟩
  intro i hi
  rw [List.length_mapIdx] at hi
  have hil : i < s.rungs.length := by omega
  have hil2 : i < (s.rungs.mapIdx (fun i r =>
      if i ≤ hcut then { r with metrics := purgeMetrics rid r.metrics } else r)).length := by
    rw [List.length_mapIdx]
    omega
  rw [List.getElem?_eq_getElem hil2]
  have hmi := List.get_mapIdx s.rungs (fun i r =>
      if i ≤ hcut then { r with metrics := purgeMetrics rid r.metrics } else r) i hil hil2
  simp only [List.get_eq_getElem] at hmi
  rw [hmi]
  have hsi := hsort i hi
  rw [List.getElem?_eq_getElem hil] at hsi
  simp only [Option.map_some', Option.getD_some] at hsi ⊢
  by_cases hic : i ≤ hcut
  · rw [if_pos hic]
    exact metricsSorted_filter _ _ hsi
  · rw [if_neg hic]
    exact hsi

theorem handle_sortedBelowTop (s : SearchState) (e : Event)
    (ops2 : List Operation) (s2 : SearchState)
    (h : handle s e = some (ops2, s2)) (hinv : RungsSortedBelowTop s) :
    RungsSortedBelowTop s2 := by
  cases e with
  | initialOps =>
    obtain ⟨hr, hn⟩ := initial_operations_loop_rungs _ _ _ _ h
    exact ⟨by rw [hr, hn]; exact hinv.1, by rw [hr]; exact hinv.2⟩
  | trialCreated rid =>
    unfold handle on_trial_created at h
    dsimp only [] at h
    rcases hr0 : s.rungs[0]? with _ | rung0 <;> rw [hr0] at h
    · cases h
    · dsimp only [] at h
      cases h
      exact sortedBelowTop_set s 0 _ hinv
        (fun hlt => sortedBelowTop_get s hinv 0 hlt rung0 hr0)
  | validationCompleted rid metric =>
    cases metric with
    | float m =>
      unfold handle on_validation_completed at h
      exact promote_async_sortedBelowTop _ _ _ _ _ _ h hinv
    | int n => cases h
  | trialClosed rid =>
    unfold handle on_trial_closed at h
    dsimp only [] at h
    split at h <;> cases h <;> exact hinv
  | trialExitedEarly rid reason =>
    unfold handle on_trial_exited_early at h
    dsimp only [] at h
    by_cases hr : reason = ExitedReason.invalidHp
    · rw [if_pos hr] at h
      rcases hlk : trLookup s.trial_rungs rid with _ | highest <;> rw [hlk] at h
      · cases h
      · dsimp only [] at h
        rcases hri : s.rungs[highest]? with _ | rung <;> rw [hri] at h
        · cases h
        · dsimp only [] at h
          have hinv1 := sortedBelowTop_set s highest { units_needed := rung.units_needed, idx := rung.idx, metrics := rung.metrics, outstanding_trials := rung.outstanding_trials - 1 } hinv (fun hlt => by
            have := sortedBelowTop_get s hinv highest hlt rung hri
            exact this)
          have hinv2 := sortedBelowTop_purge { s with rungs := s.rungs.set highest { units_needed := rung.units_needed, idx := rung.idx, metrics := rung.metrics, outstanding_trials := rung.outstanding_trials - 1 } } rid highest hinv1
          rcases hr0 : (((s.rungs.set highest { units_needed := rung.units_needed, idx := rung.idx, metrics := rung.metrics, outstanding_trials := rung.outstanding_trials - 1 }).mapIdx (fun i r => if i ≤ highest then { r with metrics := purgeMetrics rid r.metrics } else r))[0]?) with _ | rung0 <;> rw [hr0] at h
          · cases h
          · dsimp only [] at h
            cases h
            exact ⟨hinv2.1, hinv2.2⟩
    · rw [if_neg hr] at h
      exact promote_async_sortedBelowTop _ _ _ _ _ _ h hinv

theorem runEvents_sortedBelowTop :
    ∀ (evts : List Event) (s : SearchState) (ops2 : List Operation) (s2 : SearchState),
      runEvents s evts = some (ops2, s2) →
      RungsSortedBelowTop s → RungsSortedBelowTop s2 := by
  intro evts
  induction evts with
  | nil =>
    intro s ops2 s2 h hinv
    cases h
    exact hinv
  | cons e rest ih =>
    intro s ops2 s2 h hinv
    rw [runEvents] at h
    rcases h1 : handle s e with _ | p <;> rw [h1] at h
    · cases h
    · rcases p with ⟨ops1, s1⟩
      dsimp only [] at h
      rcases h2 : runEvents s1 rest with _ | p2 <;> rw [h2] at h
      · cases h
      · rcases p2 with ⟨opsr, sr⟩
        dsimp only [] at h
        cases h
        exact ih s1 _ _ h2 (handle_sortedBelowTop s e _ _ h1 hinv)

/-! ### C2: sortedness of rung metrics -/

/-- C2 amended: every rung strictly below the final rung keeps its metrics
list sorted ascending across every event handled by the state machine (from
any state satisfying the invariant, in particular a freshly constructed
one).  The final rung is exempt: `_promote_async` records final-rung results
by appending in arrival order, which refutes the original claim
(`c2_counterexample`). -/
theorem c2_amended (s : SearchState) (evts : List Event)
    (hinv : RungsSortedBelowTop s) :
    match runEvents s evts with
    | some p => RungsSortedBelowTop p.2
    | none => True := by
  rcases h : runEvents s evts with _ | p
  · trivial
  · rcases p with ⟨ops, s2⟩
    exact runEvents_sortedBelowTop evts s ops s2 h hinv

/-- Witness for C2 amended on the concrete two-rung state: the validation of
trial 2 promotes it, and every rung below the top stays sorted. -/
theorem c2_amended_witness :
    RungsSortedBelowTop twoRungState ∧
    (match runEvents twoRungState [Event.validationCompleted 2 (PyValue.float 1)] with
     | some p => RungsSortedBelowTop p.2
     | none => True) :=
  ⟨by decide, c2_amended twoRungState [Event.validationCompleted 2 (PyValue.float 1)] (by decide)⟩

/-! ### C9 machinery: recursion depth bound -/

theorem rungsModify_length (rs : List Rung) (i : Nat) (f : Rung → Rung) :
    (rungsModify rs i f).length = rs.length := by
  unfold rungsModify
  rcases h : rs[i]? with _ | r0
  · rfl
  · exact List.length_set _ _ _

theorem promote_tail_isSome (s : SearchState) (ops : List Operation) (added : Bool)
    (h : 0 < s.rungs.length) : (promote_tail s ops added).isSome = true := by
  have hr0 : s.rungs[0]? = some (s.rungs.get ⟨0, h⟩) := by
    rw [List.getElem?_eq_getElem h]
    simp [List.get_eq_getElem]
  unfold promote_tail
  dsimp only []
  rw [hr0]
  by_cases hA : added = false ∧ (s.trial_rungs.length : Int) - s.invalid_trials < s.max_trials
  · rw [if_pos hA]
    dsimp only []
    rw [hr0]
    dsimp only []
    split <;> simp
  · rw [if_neg hA]
    dsimp only []
    rw [hr0]
    dsimp only []
    split <;> simp

theorem promote_loop_isSome
    (cascade : SearchState → Nat → ℚ → Option (List Operation × SearchState))
    (rung_idx : Nat) (N : Nat) (ru nu : Int)
    (hcasc : ∀ t p, t.num_rungs = N → t.rungs.length = N →
      trLookup t.trial_rungs p = some (rung_idx + 1) →
      (cascade t p sys_float_info_max).isSome = true)
    (hlt : rung_idx + 1 < N) :
    ∀ (lst : List Nat) (s : SearchState) (ops : List Operation) (added : Bool),
      s.num_rungs = N → s.rungs.length = N →
      (promote_loop cascade rung_idx ru nu lst s ops added).isSome = true := by
  intro lst
  induction lst with
  | nil =>
    intro s ops added hn hl
    rw [promote_loop]
    exact promote_tail_isSome s ops added (by omega)
  | cons p rest ih =>
    intro s ops added hn hl
    rw [promote_loop]
    dsimp only []
    split
    · rename_i hmem
      refine hcasc _ p hn ?_ ?_
      · rw [rungsModify_length]
        exact hl
      · exact trLookup_trUpdate_self _ _ _
    · refine ih _ _ _ hn ?_
      rw [rungsModify_length]
      exact hl

/-- C9: the promotion/decision procedure terminates on every input reachable
under the state invariants: when the trial is registered at rung index `r`
with `r < num_rungs` and the rung ladder has `num_rungs` rungs, any recursion
budget of at least `num_rungs - r` (in particular the `num_rungs` budget the
handlers pass) makes `_promote_async` return a result instead of exhausting
the modelled recursion depth: the cascade taken when a retroactively promoted
trial is itself an early-exit trial advances the registered rung index by
exactly one per recursive call and only recurses strictly below the final
rung, so its depth is bounded by the rung count. -/
theorem c9_promote_async_terminates :
    ∀ (fuel : Nat) (s : SearchState) (rid r : Nat) (m : ℚ),
      trLookup s.trial_rungs rid = some r → r < s.num_rungs →
      s.rungs.length = s.num_rungs → s.num_rungs - r ≤ fuel →
      (promote_async s rid m fuel).isSome = true := by
  intro fuel
  induction fuel with
  | zero =>
    intro s rid r m hlk hr hl hfuel
    omega
  | succ fuel ih =>
    intro s rid r m hlk hr hl hfuel
    rw [promote_async]
    dsimp only []
    rw [hlk]
    dsimp only []
    have hrl : r < s.rungs.length := by omega
    rw [List.getElem?_eq_getElem hrl]
    dsimp only []
    by_cases htop : r = s.num_rungs - 1
    · rw [if_pos htop]
      split
      · exact promote_tail_isSome _ _ _ (by simpa using (by omega : (0:Nat) < s.rungs.length))
      · exact promote_tail_isSome _ _ _ (by simpa using (by omega : (0:Nat) < s.rungs.length))
    · rw [if_neg htop]
      have hnext : r + 1 < (s.rungs.set r { units_needed := s.rungs[r].units_needed, idx := s.rungs[r].idx, metrics := s.rungs[r].metrics, outstanding_trials := s.rungs[r].outstanding_trials - 1 }).length := by
        rw [List.length_set]
        omega
      rw [List.getElem?_eq_getElem hnext]
      dsimp only []
      refine promote_loop_isSome _ r s.num_rungs _ _ ?_ (by omega) _ _ _ _ rfl ?_
      · intro t p hn hl2 hlk2
        exact ih t p (r + 1) sys_float_info_max hlk2 (by omega) (by omega) (by omega)
      · rw [List.length_set, List.length_set]
        exact hl

/-- Witness for C9 on a concrete one-rung state with a registered trial and
the minimal budget num_rungs - r = 1. -/
theorem c9_promote_async_terminates_witness :
    trLookup ({ oneRungState with trial_rungs := [(1, 0)] } : SearchState).trial_rungs 1 = some 0 ∧
    0 < ({ oneRungState with trial_rungs := [(1, 0)] } : SearchState).num_rungs ∧
    ({ oneRungState with trial_rungs := [(1, 0)] } : SearchState).rungs.length =
      ({ oneRungState with trial_rungs := [(1, 0)] } : SearchState).num_rungs ∧
    (promote_async { oneRungState with trial_rungs := [(1, 0)] } 1 3 1).isSome = true :=
  ⟨rfl, by decide, rfl,
   c9_promote_async_terminates 1 { oneRungState with trial_rungs := [(1, 0)] } 1 0 3 rfl
     (by decide) rfl (by decide)⟩

/-! ### C3 machinery: emit-once tracking of Close operations -/

theorem closeListOk_nil (closed closed2 : List Nat) (ops : List Operation)
    (h1 : closeIds ops = []) (h2 : ∀ t ∈ closed, t ∈ closed2) :
    CloseListOk closed closed2 ops := by
  refine ⟨by rw [h1]; exact List.nodup_nil, ?_, ?_, h2⟩ <;>
    intro t ht <;> rw [h1] at ht <;> cases ht

theorem closeListOk_trans (c c1 c2 : List Nat) (o1 o2 : List Operation)
    (h1 : CloseListOk c c1 o1) (h2 : CloseListOk c1 c2 o2) :
    CloseListOk c c2 (o1 ++ o2) := by
  obtain ⟨n1, pre1, post1, mono1⟩ := h1
  obtain ⟨n2, pre2, post2, mono2⟩ := h2
  refine ⟨?_, ?_, ?_, fun t ht => mono2 t (mono1 t ht)⟩
  · rw [closeIds_append]
    refine List.Nodup.append n1 n2 ?_
    intro t ht1 ht2
    exact pre2 t ht2 (post1 t ht1)
  · intro t ht
    rw [closeIds_append, List.mem_append] at ht
    rcases ht with ht | ht
    · exact pre1 t ht
    · intro hc
      exact pre2 t ht (mono1 t hc)
  · intro t ht
    rw [closeIds_append, List.mem_append] at ht
    rcases ht with ht | ht
    · exact mono2 t (post1 t ht)
    · exact post2 t ht

theorem closeListOk_weaken (c c2 : List Nat) (x : Nat) (ops : List Operation)
    (h : CloseListOk (setAdd c x) c2 ops) : CloseListOk c c2 ops := by
  obtain ⟨n1, pre1, post1, mono1⟩ := h
  exact ⟨n1, fun t ht hc => pre1 t ht (subset_setAdd t hc), post1,
    fun t ht => mono1 t (subset_setAdd t ht)⟩

theorem close_rung_metrics_ok (early : List Nat) :
    ∀ (ms : List TrialMetric) (closed : List Nat),
      CloseListOk closed (close_rung_metrics early ms closed).2
        (close_rung_metrics early ms closed).1 := by
  intro ms
  induction ms with
  | nil =>
    intro closed
    exact closeListOk_nil _ _ _ rfl (fun t ht => ht)
  | cons tm rest ih =>
    intro closed
    rw [close_rung_metrics]
    by_cases hc1 : tm.promoted = false ∧ tm.request_id ∉ closed
    · rw [if_pos hc1]
      by_cases hc2 : tm.request_id ∉ early
      · rw [if_pos hc2]
        dsimp only []
        obtain ⟨n1, pre1, post1, mono1⟩ := ih (setAdd closed tm.request_id)
        refine ⟨?_, ?_, ?_, ?_⟩
        · rw [closeIds_cons_close]
          refine List.Nodup.cons ?_ n1
          intro hmem
          exact pre1 tm.request_id hmem self_mem_setAdd
        · intro t ht
          rw [closeIds_cons_close] at ht
          rcases List.mem_cons.mp ht with rfl | ht
          · exact hc1.2
          · intro hcl
            exact pre1 t ht (subset_setAdd t hcl)
        · intro t ht
          rw [closeIds_cons_close] at ht
          rcases List.mem_cons.mp ht with rfl | ht
          · exact mono1 _ self_mem_setAdd
          · exact post1 t ht
        · intro t ht
          exact mono1 t (subset_setAdd t ht)
      · rw [if_neg hc2]
        exact ih closed
    · rw [if_neg hc1]
      exact ih closed

theorem get_close_rungs_ops_ok (early : List Nat) :
    ∀ (rungs : List Rung) (closed : List Nat),
      CloseListOk closed (get_close_rungs_ops_aux early rungs closed).2
        (get_close_rungs_ops_aux early rungs closed).1 := by
  intro rungs
  induction rungs with
  | nil =>
    intro closed
    exact closeListOk_nil _ _ _ rfl (fun t ht => ht)
  | cons r rest ih =>
    intro closed
    rw [get_close_rungs_ops_aux]
    by_cases hout : r.outstanding_trials > 0
    · rw [if_pos hout]
      exact closeListOk_nil _ _ _ rfl (fun t ht => ht)
    · rw [if_neg hout]
      dsimp only []
      exact closeListOk_trans _ _ _ _ _ (close_rung_metrics_ok early r.metrics closed)
        (ih (close_rung_metrics early r.metrics closed).2)



theorem promote_tail_closedOk (s : SearchState) (ops : List Operation) (added : Bool)
    (ops2 : List Operation) (s2 : SearchState)
    (h : promote_tail s ops added = some (ops2, s2)) :
    ∃ extra, ops2 = ops ++ extra ∧ CloseListOk s.closed_trials s2.closed_trials extra := by
  unfold promote_tail at h
  dsimp only [] at h
  rcases hr0 : s.rungs[0]? with _ | rung0 <;> rw [hr0] at h <;>
    by_cases hA : added = false ∧ (s.trial_rungs.length : Int) - s.invalid_trials < s.max_trials
  · rw [if_pos hA] at h
    dsimp only [] at h
    exact absurd h (by simp)
  · rw [if_neg hA] at h
    dsimp only [] at h
    rw [hr0] at h
    dsimp only [] at h
    exact absurd h (by simp)
  · rw [if_pos hA] at h
    dsimp only [] at h
    rw [hr0] at h
    dsimp only [] at h
    split at h
    · rename_i hB
      cases h
      refine ⟨[Operation.create s.next_id, Operation.validateAfter s.next_id rung0.units_needed]
          ++ (get_close_rungs_ops_aux s.early_exit_trials s.rungs s.closed_trials).1, ?_, ?_⟩
      · rw [List.append_assoc]
      · refine closeListOk_trans _ s.closed_trials _ _ _
          (closeListOk_nil _ _ _ rfl (fun t ht => ht)) ?_
        exact get_close_rungs_ops_ok s.early_exit_trials s.rungs s.closed_trials
    · cases h
      exact ⟨[Operation.create s.next_id, Operation.validateAfter s.next_id rung0.units_needed],
        rfl, closeListOk_nil _ _ _ rfl (fun t ht => ht)⟩
  · rw [if_neg hA] at h
    dsimp only [] at h
    rw [hr0] at h
    dsimp only [] at h
    split at h
    · rename_i hB
      cases h
      refine ⟨(get_close_rungs_ops_aux s.early_exit_trials s.rungs s.closed_trials).1, rfl, ?_⟩
      exact get_close_rungs_ops_ok s.early_exit_trials s.rungs s.closed_trials
    · cases h
      exact ⟨[], by rw [List.append_nil], closeListOk_nil _ _ _ rfl (fun t ht => ht)⟩



theorem promote_loop_closedOk
    (cascade : SearchState → Nat → ℚ → Option (List Operation × SearchState))
    (rung_idx : Nat) (ru nu : Int)
    (hcasc : ∀ t p ops2 t2, cascade t p sys_float_info_max = some (ops2, t2) →
      p ∈ t.early_exit_trials → CloseListOk t.closed_trials t2.closed_trials ops2) :
    ∀ (lst : List Nat) (s : SearchState) (ops : List Operation) (added : Bool)
      (ops2 : List Operation) (s2 : SearchState),
      promote_loop cascade rung_idx ru nu lst s ops added = some (ops2, s2) →
      closeIds ops = [] →
      CloseListOk s.closed_trials s2.closed_trials ops2 := by
  intro lst
  induction lst with
  | nil =>
    intro s ops added ops2 s2 h hops
    rw [promote_loop] at h
    obtain ⟨extra, rfl, hok⟩ := promote_tail_closedOk s ops added ops2 s2 h
    obtain ⟨n1, pre1, post1, mono1⟩ := hok
    refine ⟨?_, ?_, ?_, mono1⟩
    · rw [closeIds_append, hops]
      exact n1
    · intro t ht
      rw [closeIds_append, hops] at ht
      exact pre1 t ht
    · intro t ht
      rw [closeIds_append, hops] at ht
      exact post1 t ht
  | cons p rest ih =>
    intro s ops added ops2 s2 h hops
    rw [promote_loop] at h
    dsimp only [] at h
    split at h
    · rename_i hmem
      have hres := hcasc _ p ops2 s2 h hmem
      exact hres
    · have hres := ih _ _ _ ops2 s2 h (by rw [closeIds_append, hops]; rfl)
      exact hres

theorem promote_async_closedOk :
    ∀ (fuel : Nat) (s : SearchState) (rid : Nat) (m : ℚ)
      (ops2 : List Operation) (s2 : SearchState),
      promote_async s rid m fuel = some (ops2, s2) →
      (rid ∉ s.early_exit_trials → rid ∉ s.closed_trials) →
      CloseListOk s.closed_trials s2.closed_trials ops2 := by
  intro fuel
  induction fuel with
  | zero =>
    intro s rid m ops2 s2 h hH
    cases h
  | succ fuel ih =>
    intro s rid m ops2 s2 h hH
    rw [promote_async] at h
    dsimp only [] at h
    rcases hlk : trLookup s.trial_rungs rid with _ | rung_idx <;> rw [hlk] at h
    · cases h
    · dsimp only [] at h
      rcases hri : s.rungs[rung_idx]? with _ | rung0 <;> rw [hri] at h
      · cases h
      · dsimp only [] at h
        by_cases htop : rung_idx = s.num_rungs - 1
        · rw [if_pos htop] at h
          split at h
          · obtain ⟨extra, rfl, hok⟩ := promote_tail_closedOk _ _ _ _ _ h
            obtain ⟨n1, pre1, post1, mono1⟩ := hok
            exact ⟨n1, pre1, post1, mono1⟩
          · rename_i hmem
            obtain ⟨extra, rfl, hok⟩ := promote_tail_closedOk _ _ _ _ _ h
            refine closeListOk_trans s.closed_trials
              (setAdd s.closed_trials rid) _ [Operation.close rid] extra ?_ hok
            refine ⟨List.nodup_singleton rid, ?_, ?_, fun t ht => subset_setAdd t ht⟩
            · intro t ht
              rcases List.mem_singleton.mp (by simpa [closeIds] using ht) with rfl
              exact hH hmem
            · intro t ht
              rcases List.mem_singleton.mp (by simpa [closeIds] using ht) with rfl
              exact self_mem_setAdd
        · rw [if_neg htop] at h
          rcases hnext : (s.rungs.set rung_idx { units_needed := rung0.units_needed, idx := rung0.idx, metrics := rung0.metrics, outstanding_trials := rung0.outstanding_trials - 1 })[rung_idx + 1]? with _ | next_rung <;> rw [hnext] at h
          · cases h
          · dsimp only [] at h
            have hres := promote_loop_closedOk (fun t p mm => promote_async t p mm fuel)
              rung_idx rung0.units_needed next_rung.units_needed
              (fun t p o2 t2 hc hp => ih t p sys_float_info_max o2 t2 hc (fun hne => absurd hp hne))
              _ _ _ _ ops2 s2 h rfl
            exact hres



theorem initial_operations_loop_closed :
    ∀ (n : Nat) (s : SearchState) (ops2 : List Operation) (s2 : SearchState),
      initial_operations_loop s n = some (ops2, s2) →
      closeIds ops2 = [] ∧ s2.closed_trials = s.closed_trials := by
  intro n
  induction n with
  | zero =>
    intro s ops2 s2 h
    cases h
    exact ⟨rfl, rfl⟩
  | succ n ih =>
    intro s ops2 s2 h
    rw [initial_operations_loop] at h
    dsimp only [] at h
    rcases hr0 : s.rungs[0]? with _ | rung0 <;> rw [hr0] at h
    · cases h
    · dsimp only [] at h
      rcases hrec : initial_operations_loop { s with next_id := s.next_id + 1, trial_rungs := trUpdate s.trial_rungs s.next_id 0, pending_trials := s.pending_trials + 1 } n with _ | p <;> rw [hrec] at h
      · cases h
      · rcases p with ⟨ops3, s3⟩
        dsimp only [] at h
        cases h
        obtain ⟨hc, hcl⟩ := ih _ _ _ hrec
        exact ⟨by simpa [closeIds] using hc, hcl⟩

theorem handle_closedOk (s : SearchState) (e : Event)
    (ops2 : List Operation) (s2 : SearchState)
    (hok : okEvent s e = true) (h : handle s e = some (ops2, s2)) :
    CloseListOk s.closed_trials s2.closed_trials ops2 := by
  cases e with
  | initialOps =>
    obtain ⟨hc, hcl⟩ := initial_operations_loop_closed _ _ _ _ h
    exact closeListOk_nil _ _ _ hc (fun t ht => by rw [hcl]; exact ht)
  | trialCreated rid =>
    unfold handle on_trial_created at h
    dsimp only [] at h
    rcases hr0 : s.rungs[0]? with _ | rung0 <;> rw [hr0] at h
    · cases h
    · dsimp only [] at h
      cases h
      exact closeListOk_nil _ _ _ rfl (fun t ht => ht)
  | validationCompleted rid metric =>
    cases metric with
    | float m =>
      unfold handle on_validation_completed at h
      have hok2 : rid ∉ s.closed_trials := by simpa [okEvent] using hok
      have hres := promote_async_closedOk _ _ _ _ ops2 s2 h (fun _ => hok2)
      exact hres
    | int n => cases h
  | trialClosed rid =>
    unfold handle on_trial_closed at h
    dsimp only [] at h
    split at h <;> cases h <;>
      exact closeListOk_nil _ _ _ rfl (fun t ht => subset_setAdd t ht)
  | trialExitedEarly rid reason =>
    have hok2 : rid ∉ s.closed_trials := by simpa [okEvent] using hok
    unfold handle on_trial_exited_early at h
    dsimp only [] at h
    by_cases hr : reason = ExitedReason.invalidHp
    · rw [if_pos hr] at h
      rcases hlk : trLookup s.trial_rungs rid with _ | highest <;> rw [hlk] at h
      · cases h
      · dsimp only [] at h
        rcases hri : s.rungs[highest]? with _ | rung <;> rw [hri] at h
        · cases h
        · dsimp only [] at h
          rcases hr0 : (((s.rungs.set highest { units_needed := rung.units_needed, idx := rung.idx, metrics := rung.metrics, outstanding_trials := rung.outstanding_trials - 1 }).mapIdx (fun i r => if i ≤ highest then { r with metrics := purgeMetrics rid r.metrics } else r))[0]?) with _ | rung0 <;> rw [hr0] at h
          · cases h
          · dsimp only [] at h
            cases h
            refine ⟨List.nodup_singleton rid, ?_, ?_, fun t ht => subset_setAdd t ht⟩
            · intro t ht
              rcases List.mem_singleton.mp (by simpa [closeIds] using ht) with rfl
              exact hok2
            · intro t ht
              rcases List.mem_singleton.mp (by simpa [closeIds] using ht) with rfl
              exact self_mem_setAdd
    · rw [if_neg hr] at h
      have hres := promote_async_closedOk _ _ _ _ ops2 s2 h
        (fun hne => absurd self_mem_setAdd hne)
      exact closeListOk_weaken _ _ rid ops2 hres

theorem runEvents_closedOk :
    ∀ (evts : List Event) (s : SearchState) (ops2 : List Operation) (s2 : SearchState),
      admissibleFrom s evts = true → runEvents s evts = some (ops2, s2) →
      CloseListOk s.closed_trials s2.closed_trials ops2 := by
  intro evts
  induction evts with
  | nil =>
    intro s ops2 s2 hadm h
    cases h
    exact closeListOk_nil _ _ _ rfl (fun t ht => ht)
  | cons e rest ih =>
    intro s ops2 s2 hadm h
    rw [runEvents] at h
    rw [admissibleFrom] at hadm
    rw [Bool.and_eq_true] at hadm
    obtain ⟨hok, hadm2⟩ := hadm
    rcases h1 : handle s e with _ | p <;> rw [h1] at h
    · cases h
    · rcases p with ⟨ops1, s1⟩
      dsimp only [] at h
      rw [h1] at hadm2
      dsimp only [] at hadm2
      rcases h2 : runEvents s1 rest with _ | p2 <;> rw [h2] at h
      · cases h
      · rcases p2 with ⟨opsr, sr⟩
        dsimp only [] at h
        cases h
        exact closeListOk_trans _ _ _ _ _ (handle_closedOk s e ops1 s1 hok h1)
          (ih s1 _ _ hadm2 h2)

/-! ### C3: no double Close under admissible runs -/

/-- C3 amended: across any run from any state in which the environment never
delivers a ValidationCompleted or TrialExitedEarly event for a trial already
in closedTrials, no trial id is the subject of more than one emitted
CloseTrial operation: the Close ids of the whole run are duplicate-free.
For fully arbitrary event sequences the claim fails (`c3_counterexample`):
a duplicated TrialExitedEarly(t, INVALID_HP) event makes the handler emit
Close(t) twice. -/
theorem c3_amended (s : SearchState) (evts : List Event)
    (hadm : admissibleFrom s evts = true) :
    match runEvents s evts with
    | some p => (closeIds p.1).Nodup
    | none => True := by
  rcases h : runEvents s evts with _ | p
  · trivial
  · rcases p with ⟨ops, s2⟩
    exact (runEvents_closedOk evts s ops s2 hadm h).1

/-- Witness for C3 amended: an admissible four-event run on the concrete
one-rung state that emits Close(1) and Close(2), duplicate-free. -/
theorem c3_amended_witness :
    admissibleFrom oneRungState [Event.trialCreated 1, Event.trialCreated 2,
      Event.validationCompleted 1 (PyValue.float 5),
      Event.validationCompleted 2 (PyValue.float 3)] = true ∧
    (match runEvents oneRungState [Event.trialCreated 1, Event.trialCreated 2,
      Event.validationCompleted 1 (PyValue.float 5),
      Event.validationCompleted 2 (PyValue.float 3)] with
     | some p => (closeIds p.1).Nodup
     | none => True) :=
  ⟨by decide, c3_amended oneRungState [Event.trialCreated 1, Event.trialCreated 2,
      Event.validationCompleted 1 (PyValue.float 5),
      Event.validationCompleted 2 (PyValue.float 3)] (by decide)⟩

end Asha
